import Mathlib

/-
  Shallow embedding of the ChessMMO match-state engine (src/server.js).

  Conventions used throughout:
  * JavaScript numbers used as board coordinates are modelled as `Int`
    (client-supplied destinations may be negative).
  * `Math.floor(Math.random() * k)` is modelled by `r i % k` for an ambient
    draw stream `r : Nat → Nat` with a threaded call counter `i`; one stream
    index per `Math.random()` call, in call order.
  * A JavaScript `Set` of `"row,col"` string keys is modelled as a
    `List (Int × Int)` with membership; `Set.add` is `setAdd` (a no-op when
    the element is present, mirroring `Set` idempotence).  The string key
    `row + "," + col` is injective on integer pairs, so pair membership is
    an exact model.
  * A JavaScript `Map` keyed by player id is modelled as a `List Player`
    whose entries have pairwise distinct ids in every reachable state;
    `Map.get` is `playersGet` (first match).
  * The 200x200 board of cells `\x7b piece, woods \x7d` is modelled as a total
    function `Int → Int → Option Piece`; the `woods` cell flag is never set
    by the server and is informational only, so it is omitted.  `setCell`
    is assignment to `board[r][c].piece`.
  * In-place mutation of a shared piece object (the same object is
    referenced from its owner's `pieces` array and from a board cell) is
    modelled by rewriting every list entry carrying the piece's id and the
    relevant board cells explicitly.
  * `setTimeout` for the 5-second cooldown is modelled by returning the
    scheduled one-shot task (`CooldownTimer`, with its fire time) as data;
    its callback body is `cooldownCallback`.  `socket.emit`/`io.to(..).emit`
    are modelled by returned `Emit` lists (`toCaller` vs `toRoom`).
-/

namespace ChessMMO

/-! ### Definitions: the embedded data model and operations -/

/-- `BOARD_SIZE` from src/server.js. -/
def BOARD_SIZE : Nat := 200

inductive PieceType
  | king | queen | rook | bishop | knight | pawn
deriving DecidableEq, Repr

inductive Phase
  | lobby | playing | ended
deriving DecidableEq, Repr

/-- One chess unit (the piece object literal built in `createPlayerPieces`). -/
structure Piece where
  id : String
  type : PieceType
  color : String
  playerId : String
  row : Int
  col : Int
  canMove : Bool
  cooldownExpires : Int
deriving DecidableEq, Repr

/-- One participant (the player object literal built in the `join_room` handler). -/
structure Player where
  id : String
  sessionId : String
  name : String
  isAdmin : Bool
  color : String
  pieces : List Piece
  alive : Bool
  connected : Bool
deriving DecidableEq, Repr

/-- Messages sent over the socket layer that the claims observe. -/
inductive Msg
  | invalidMove
  | pieceMoved (pieceId : String) (fromRow fromCol toRow toCol : Int) (playerId : String)
  | gameEnded (winner : Option String)
  | cooldownExpired (pieceId : String)
deriving DecidableEq, Repr

/-- An emission, tagged with its audience: `socket.emit` (caller only)
vs `io.to(roomId).emit` (room broadcast). -/
inductive Emit
  | toCaller (m : Msg)
  | toRoom (m : Msg)
deriving DecidableEq, Repr

/-- A scheduled one-shot `setTimeout` flipping a piece's cooldown. -/
structure CooldownTimer where
  pieceId : String
  fireAt : Int
deriving DecidableEq, Repr

/-- One game room (the object literal built in `createGameRoom`).
`shrinkInterval` is `true` while the recurring shrink timer is running. -/
structure Room where
  phase : Phase
  players : List Player
  board : Int → Int → Option Piece
  woods : List (Int × Int)
  dangerZones : List (Int × Int)
  shrinkTimer : Int
  shrinkInterval : Bool
  turn : Int
  admin : Option String

/-- JavaScript `Set.add`: append unless already present. -/
def setAdd (s : List (Int × Int)) (x : Int × Int) : List (Int × Int) :=
  if x ∈ s then s else s ++ [x]

/-- Write to `board[r][c].piece`. -/
def setCell (b : Int → Int → Option Piece) (r c : Int) (v : Option Piece) :
    Int → Int → Option Piece :=
  fun r' c' => if r' = r ∧ c' = c then v else b r' c'

/-- `createBoard`: every cell starts with `piece: null`. -/
def createBoard : Int → Int → Option Piece := fun _ _ => none

/-- `Math.floor(Math.random() * 6) - 3`: the per-axis patch offset drawn in
`generateWoods`. -/
def randOffset (x : Nat) : Int := (x % 6 : Nat) - 3

/-- One sub-draw of a woods patch: offset the center on each axis and add the
result to the woods set when it is in bounds.  Returns the new woods set and
the advanced draw counter. -/
def subDrawStep (woods : List (Int × Int)) (centerRow centerCol : Int)
    (r : Nat → Nat) (k : Nat) : List (Int × Int) × Nat :=
  let row := centerRow + randOffset (r k)
  let col := centerCol + randOffset (r (k + 1))
  (if 0 ≤ row ∧ row < (BOARD_SIZE : Int) ∧ 0 ≤ col ∧ col < (BOARD_SIZE : Int)
   then setAdd woods (row, col) else woods, k + 2)

/-- The inner `for (let j = 0; j < patchSize; j++)` loop of `generateWoods`. -/
def patchLoop : Nat → List (Int × Int) → Int → Int → (Nat → Nat) → Nat →
    List (Int × Int) × Nat
  | 0, woods, _, _, _, k => (woods, k)
  | n + 1, woods, cr, cc, r, k =>
    let s := subDrawStep woods cr cc r k
    patchLoop n s.1 cr cc r s.2

/-- The outer `for (let i = 0; i < numPatches; i++)` loop of `generateWoods`. -/
def woodsLoop : Nat → List (Int × Int) → (Nat → Nat) → Nat → List (Int × Int) × Nat
  | 0, woods, _, k => (woods, k)
  | n + 1, woods, r, k =>
    let centerRow : Int := (r k % BOARD_SIZE : Nat)
    let centerCol : Int := (r (k + 1) % BOARD_SIZE : Nat)
    let patchSize : Nat := r (k + 2) % 8 + 3
    let s := patchLoop patchSize woods centerRow centerCol r (k + 3)
    woodsLoop n s.1 r s.2

/-- `generateWoods`; `Math.floor(BOARD_SIZE * BOARD_SIZE * 0.05) = 2000` patches. -/
def generateWoods (r : Nat → Nat) : List (Int × Int) :=
  (woodsLoop 2000 [] r 0).1

/-- `room.players.get(pid)` on the id-keyed player map. -/
def playersGet (players : List Player) (pid : String) : Option Player :=
  players.find? (fun pl => pl.id = pid)

/-- `findPiece`: scan every player's piece list for the id. -/
def findPiece (room : Room) (pieceId : String) : Option Piece :=
  room.players.findSome? (fun pl => pl.pieces.find? (fun p => p.id = pieceId))

/-- `removePieceFromGame`: drop the piece from its owner's list and mark the
owner dead when the list empties.  (The stored board reference is not
touched by the source.) -/
def removePieceFromGame (room : Room) (piece : Piece) : Room :=
  { room with
    players := room.players.map (fun pl =>
      if pl.id = piece.playerId then
        let ps := pl.pieces.filter (fun p => p.id ≠ piece.id)
        { pl with pieces := ps, alive := if ps.length = 0 then false else pl.alive }
      else pl) }

/-- `isValidMove`.  The final `room.players.get(piece.playerId)` lookup is
modelled with an `Option` match; the `none` branch is unreachable from the
`move_piece` handler (which only passes pieces found in some player's list). -/
def isValidMove (room : Room) (piece : Piece) (toRow toCol : Int) : Bool :=
  if toRow < 0 ∨ toRow ≥ (BOARD_SIZE : Int) ∨ toCol < 0 ∨ toCol ≥ (BOARD_SIZE : Int) then
    false
  else if (toRow, toCol) ∈ room.woods ∨ (toRow, toCol) ∈ room.dangerZones then
    false
  else if piece.canMove = false ∧ piece.type ≠ PieceType.king then
    false
  else
    match playersGet room.players piece.playerId with
    | some player =>
      match player.pieces.find? (fun p => p.type = PieceType.king) with
      | some king =>
        if max (toRow - king.row).natAbs (toCol - king.col).natAbs > 10 then false
        else true
      | none => true
    | none => true

/-- The value of the moved piece after `executeMove` finishes: coordinates
updated, and (for non-kings) the cooldown fields set.  The source mutates one
shared object, so the owner's list entry and the destination cell both end up
holding exactly this value. -/
def movedPieceOf (piece : Piece) (toRow toCol now : Int) : Piece :=
  if piece.type ≠ PieceType.king then
    { piece with row := toRow, col := toCol, canMove := false,
                 cooldownExpires := now + 5000 }
  else
    { piece with row := toRow, col := toCol }

/-- `executeMove`.  `now` stands for `Date.now()`; the scheduled 5-second
`setTimeout` is returned as data.  Note the capture read happens after the
origin cell is cleared, exactly as in the source. -/
def executeMove (room : Room) (piece : Piece) (toRow toCol now : Int) :
    Room × List CooldownTimer :=
  let b1 := setCell room.board piece.row piece.col none
  let room1 : Room := { room with board := b1 }
  let room2 :=
    match b1 toRow toCol with
    | some captured => removePieceFromGame room1 captured
    | none => room1
  let piece' := movedPieceOf piece toRow toCol now
  let room3 : Room :=
    { room2 with
      players := room2.players.map (fun pl =>
        { pl with pieces := pl.pieces.map (fun p =>
            if p.id = piece.id then piece' else p) }),
      board := setCell room2.board toRow toCol (some piece') }
  (room3, if piece.type ≠ PieceType.king then [⟨piece.id, now + 5000⟩] else [])

/-- Body of the cooldown `setTimeout` callback: flip the piece's `canMove`
back on (wherever the shared object is referenced) and broadcast the
cooldown-expired notice. -/
def cooldownCallback (room : Room) (pid : String) : Room × List Emit :=
  ({ room with
     players := room.players.map (fun pl =>
       { pl with pieces := pl.pieces.map (fun p =>
           if p.id = pid then { p with canMove := true } else p) }),
     board := fun r c =>
       match room.board r c with
       | some p => if p.id = pid then some { p with canMove := true } else some p
       | none => none },
   [Emit.toRoom (Msg.cooldownExpired pid)])

/-- The `alivePlayers` filter of `checkGameEnd`. -/
def alivePlayers (room : Room) : List Player :=
  room.players.filter (fun p => p.alive = true ∧ p.pieces.length > 0)

/-- `checkGameEnd`. -/
def checkGameEnd (room : Room) : Room × List Emit :=
  if (alivePlayers room).length ≤ 1 then
    ({ room with phase := Phase.ended, shrinkInterval := false },
     [Emit.toRoom (Msg.gameEnded ((alivePlayers room).head?.map Player.name))])
  else (room, [])

/-- The `move_piece` socket handler (the room was already looked up; the
sender's identity is `senderId`).  Returns the updated room, the emissions,
and any scheduled cooldown task. -/
def movePieceHandler (room : Room) (senderId pieceId : String)
    (fromRow fromCol toRow toCol now : Int) : Room × List Emit × List CooldownTimer :=
  if room.phase ≠ Phase.playing then (room, [], [])
  else
    match playersGet room.players senderId with
    | none => (room, [], [])
    | some player =>
      if player.alive = false then (room, [], [])
      else
        match findPiece room pieceId with
        | none => (room, [], [])
        | some piece =>
          if piece.playerId ≠ senderId then (room, [], [])
          else if isValidMove room piece toRow toCol = false then
            (room, [Emit.toCaller Msg.invalidMove], [])
          else
            let moved := executeMove room piece toRow toCol now
            let ended := checkGameEnd moved.1
            (ended.1,
             Emit.toRoom (Msg.pieceMoved pieceId fromRow fromCol toRow toCol senderId)
               :: ended.2,
             moved.2)

/-- One row of the `borderSquares` collection pass of `shrinkBoard`. -/
def borderRowScan (dz : List (Int × Int)) (row : Nat) : List (Int × Int) :=
  (List.range BOARD_SIZE).filterMap (fun col =>
    if (row = 0 ∨ row = BOARD_SIZE - 1 ∨ col = 0 ∨ col = BOARD_SIZE - 1)
       ∧ ((row : Int), (col : Int)) ∉ dz
    then some ((row : Int), (col : Int)) else none)

/-- The `borderSquares` collection pass of `shrinkBoard`: scan the whole grid
in row-major order and keep the outer-ring cells not already in
`dangerZones`. -/
def borderSquares (room : Room) : List (Int × Int) :=
  (List.range BOARD_SIZE).flatMap (borderRowScan room.dangerZones)

/-- `const piece = room.board[sq.row][sq.col].piece; if (piece)
removePieceFromGame(room, piece);` — the elimination of a shrunk square's
occupant. -/
def eliminateAt (room : Room) (sq : Int × Int) : Room :=
  match room.board sq.1 sq.2 with
  | some p => removePieceFromGame room p
  | none => room

/-- One iteration of the selection loop of `shrinkBoard`
(`for (let i = 0; i < Math.min(2, borderSquares.length); i++)`): splice out a
random square, add it to `dangerZones`, and eliminate any occupant.  The
guard re-reads the current (post-splice) length, exactly like the source
loop condition. -/
def shrinkSelect (room : Room) (bs : List (Int × Int)) (rnd : Nat → Nat)
    (i : Nat) : Room × List (Int × Int) :=
  if h : i < min 2 bs.length then
    let j := rnd i % bs.length
    let sq := bs.get ⟨j, Nat.mod_lt _ (Nat.lt_of_le_of_lt (Nat.zero_le i)
                (Nat.lt_of_lt_of_le h (Nat.min_le_right 2 bs.length)))⟩
    (eliminateAt { room with dangerZones := setAdd room.dangerZones sq } sq,
     bs.eraseIdx j)
  else (room, bs)

/-- `shrinkBoard`: the loop body can run at most twice (the bound
`Math.min(2, ...)` caps `i` at 1), so the two iterations are unrolled. -/
def shrinkBoard (room : Room) (rnd : Nat → Nat) : Room :=
  let bs := borderSquares room
  let s1 := shrinkSelect room bs rnd 0
  (shrinkSelect s1.1 s1.2 rnd 1).1

/-- The `player.pieces.forEach` loop of `removePlayer`, clearing each piece's
cell. -/
def clearCells (ps : List Piece) (b : Int → Int → Option Piece) :
    Int → Int → Option Piece :=
  ps.foldl (fun b p => setCell b p.row p.col none) b

/-- `removePlayer`: erase the player's pieces from the board, delete the
player, and hand admin to the first remaining player when needed. -/
def removePlayer (room : Room) (playerId : String) : Room :=
  match playersGet room.players playerId with
  | none => room
  | some player =>
    let board' := clearCells player.pieces room.board
    let players' := room.players.filter (fun pl => pl.id ≠ playerId)
    if room.admin = some playerId ∧ players'.length > 0 then
      match players' with
      | [] => { room with board := board', players := players' }
      | first :: rest =>
        { room with board := board',
                    players := { first with isAdmin := true } :: rest,
                    admin := some first.id }
    else
      { room with board := board', players := players' }

/-- `resetGame`. -/
def resetGame (room : Room) (r : Nat → Nat) : Room :=
  { room with
    phase := Phase.lobby,
    board := createBoard,
    woods := generateWoods r,
    dangerZones := [],
    shrinkTimer := 60,
    turn := 0,
    shrinkInterval := false,
    players := room.players.map (fun pl => { pl with pieces := [], alive := true }) }

/-- Squared-distance version of the `Math.sqrt(..) < minDistance` test of
`generateSpawnPositions`: for integer coordinates, `sqrt d2 < 20 ↔ d2 < 400`
exactly (IEEE sqrt is correctly rounded and both bounds are representable). -/
def tooCloseTo (positions : List (Int × Int)) (row col : Int) : Prop :=
  ∃ pos ∈ positions, (row - pos.1) ^ 2 + (col - pos.2) ^ 2 < 400

instance (positions : List (Int × Int)) (row col : Int) :
    Decidable (tooCloseTo positions row col) :=
  List.decidableBEx _ positions

/-- The `while (!validPosition && attempts < maxAttempts)` loop of
`generateSpawnPositions`, with the remaining attempt budget as fuel. -/
def spawnAttemptLoop (positions : List (Int × Int)) (r : Nat → Nat) :
    Nat → Nat → Option (Int × Int) × Nat
  | k, 0 => (none, k)
  | k, fuel + 1 =>
    let row : Int := ((r k % (BOARD_SIZE - 10) : Nat) : Int) + 5
    let col : Int := ((r (k + 1) % (BOARD_SIZE - 10) : Nat) : Int) + 5
    if tooCloseTo positions row col then spawnAttemptLoop positions r (k + 2) fuel
    else (some (row, col), k + 2)

/-- The edge fallback of `generateSpawnPositions` (budget exhausted). -/
def spawnFallback (r : Nat → Nat) (k : Nat) : (Int × Int) × Nat :=
  let edge := r k % 4
  let other : Int := ((r (k + 1) % BOARD_SIZE : Nat) : Int)
  (if edge = 0 then ((5 : Int), other)
   else if edge = 1 then ((BOARD_SIZE : Int) - 5, other)
   else if edge = 2 then (other, (5 : Int))
   else (other, (BOARD_SIZE : Int) - 5), k + 2)

/-- The per-player loop of `generateSpawnPositions`. -/
def spawnLoop (r : Nat → Nat) : Nat → List (Int × Int) → Nat → List (Int × Int)
  | 0, positions, _ => positions
  | n + 1, positions, k =>
    match spawnAttemptLoop positions r k 1000 with
    | (some p, k1) => spawnLoop r n (positions ++ [p]) k1
    | (none, k1) =>
      let fb := spawnFallback r k1
      spawnLoop r n (positions ++ [fb.1]) fb.2

/-- `generateSpawnPositions`. -/
def generateSpawnPositions (playerCount : Nat) (r : Nat → Nat) : List (Int × Int) :=
  spawnLoop r playerCount [] 0

/-! ## Invariants (the testable properties of the spec, stated over the model) -/

/-- Spec §8: `alive = false` iff the piece list is empty, for every player. -/
def AliveIffPieces (room : Room) : Prop :=
  ∀ pl ∈ room.players, pl.alive = false ↔ pl.pieces = []

/-- Every occupied cell's piece records exactly that cell's coordinates.
Since the board maps each coordinate to at most one piece, this also rules
out a piece appearing at a second coordinate. -/
def DualityCoords (room : Room) : Prop :=
  ∀ r c p, room.board r c = some p → p.row = r ∧ p.col = c

/-- Every piece referenced by the board is reachable from its owner's entry
in the player table. -/
def BoardReachable (room : Room) : Prop :=
  ∀ r c p, room.board r c = some p →
    ∃ pl, pl ∈ room.players ∧ pl.id = p.playerId ∧ p ∈ pl.pieces

/-- Every piece owned by a player sits on the board at its recorded
coordinates. -/
def ListOnBoard (room : Room) : Prop :=
  ∀ pl ∈ room.players, ∀ p ∈ pl.pieces, room.board p.row p.col = some p

/-- Board-piece duality (spec §8). -/
def Duality (room : Room) : Prop :=
  DualityCoords room ∧ BoardReachable room ∧ ListOnBoard room

/-- Every piece's `playerId` names the player whose list holds it. -/
def OwnIds (room : Room) : Prop :=
  ∀ pl ∈ room.players, ∀ p ∈ pl.pieces, p.playerId = pl.id

/-- Piece ids are globally unique across the room. -/
def UniquePieceIds (room : Room) : Prop :=
  ∀ pl ∈ room.players, ∀ pl' ∈ room.players,
    ∀ p ∈ pl.pieces, ∀ p' ∈ pl'.pieces, p.id = p'.id → pl = pl' ∧ p = p'

/-- Player ids are pairwise distinct (the source keys players by id in a
`Map`). -/
def PlayerIdsNodup (room : Room) : Prop := (room.players.map Player.id).Nodup

/-- The id bookkeeping every reachable room state satisfies. -/
def WellFormed (room : Room) : Prop :=
  OwnIds room ∧ UniquePieceIds room ∧ PlayerIdsNodup room

/-! ## Concrete fixtures for witnesses and counterexamples -/

/-- A king for player "A" sitting at (3,3). -/
def pKingA : Piece :=
  { id := "A_0", type := PieceType.king, color := "white", playerId := "A",
    row := 3, col := 3, canMove := true, cooldownExpires := 0 }

/-- A pawn for player "A" sitting at (4,3). -/
def pPawnA : Piece :=
  { id := "A_8", type := PieceType.pawn, color := "white", playerId := "A",
    row := 4, col := 3, canMove := true, cooldownExpires := 0 }

/-- A king for player "B" sitting at (50,50). -/
def pKingB : Piece :=
  { id := "B_0", type := PieceType.king, color := "black", playerId := "B",
    row := 50, col := 50, canMove := true, cooldownExpires := 0 }

/-- A pawn for player "A" sitting on the outer-ring cell (0,0). -/
def pEdgeA : Piece :=
  { id := "A_1", type := PieceType.pawn, color := "white", playerId := "A",
    row := 0, col := 0, canMove := true, cooldownExpires := 0 }

def playerA : Player :=
  { id := "A", sessionId := "sA", name := "Alice", isAdmin := true,
    color := "#FF6B6B", pieces := [pKingA, pPawnA], alive := true, connected := true }

def playerB : Player :=
  { id := "B", sessionId := "sB", name := "Bob", isAdmin := false,
    color := "#4ECDC4", pieces := [pKingB], alive := true, connected := true }

/-- Player "A" holding only the edge pawn. -/
def playerACex : Player :=
  { id := "A", sessionId := "sA", name := "Alice", isAdmin := true,
    color := "#FF6B6B", pieces := [pEdgeA], alive := true, connected := true }

def boardW : Int → Int → Option Piece := fun r c =>
  if r = 3 ∧ c = 3 then some pKingA
  else if r = 4 ∧ c = 3 then some pPawnA
  else if r = 50 ∧ c = 50 then some pKingB
  else none

/-- A small mid-match room: two players, three pieces, no terrain. -/
def roomW : Room :=
  { phase := Phase.playing, players := [playerA, playerB], board := boardW,
    woods := [], dangerZones := [], shrinkTimer := 60, shrinkInterval := true,
    turn := 0, admin := some "A" }

def boardCex : Int → Int → Option Piece := fun r c =>
  if r = 0 ∧ c = 0 then some pEdgeA
  else if r = 50 ∧ c = 50 then some pKingB
  else none

/-- A mid-match room with a piece on the outer ring, used to exercise a
shrink elimination concretely. -/
def roomCex : Room :=
  { phase := Phase.playing, players := [playerACex, playerB], board := boardCex,
    woods := [], dangerZones := [], shrinkTimer := 60, shrinkInterval := true,
    turn := 0, admin := some "A" }

/-- A deterministic draw stream: every `Math.random()` call yields the
smallest admissible value. -/
def rnd0 : Nat → Nat := fun _ => 0

/-! ## Claim C8: terrain generation -/

/-- In-bounds on the 200x200 board. -/
def inBoundsCoord (q : Int × Int) : Prop :=
  0 ≤ q.1 ∧ q.1 < (BOARD_SIZE : Int) ∧ 0 ≤ q.2 ∧ q.2 < (BOARD_SIZE : Int)

instance (q : Int × Int) : Decidable (inBoundsCoord q) := by
  unfold inBoundsCoord
  infer_instance

/-! ## Claim C9: spawn placement -/

/-- An acceptable spawn: either accepted by the random budget (inset region,
squared distance at least 400 = 20^2 from every earlier spawn) or produced
by the unconditional edge fallback. -/
def spawnOk (prev : List (Int × Int)) (p : Int × Int) : Prop :=
  (5 ≤ p.1 ∧ p.1 < 195 ∧ 5 ≤ p.2 ∧ p.2 < 195
    ∧ ∀ q ∈ prev, 400 ≤ (p.1 - q.1) ^ 2 + (p.2 - q.2) ^ 2)
  ∨ (p.1 = 5 ∨ p.1 = 195 ∨ p.2 = 5 ∨ p.2 = 195)

instance (prev : List (Int × Int)) (p : Int × Int) : Decidable (spawnOk prev p) := by
  unfold spawnOk
  infer_instance

/-- Every position in the list is `spawnOk` with respect to the positions
before it (the accumulating prefix starts at `prev`). -/
def spawnChain (prev : List (Int × Int)) : List (Int × Int) → Prop
  | [] => True
  | p :: rest => spawnOk prev p ∧ spawnChain (prev ++ [p]) rest

def spawnChainDec (prev : List (Int × Int)) :
    (l : List (Int × Int)) → Decidable (spawnChain prev l)
  | [] => isTrue trivial
  | p :: rest =>
    haveI : Decidable (spawnChain (prev ++ [p]) rest) := spawnChainDec (prev ++ [p]) rest
    inferInstanceAs (Decidable (spawnOk prev p ∧ spawnChain (prev ++ [p]) rest))

instance (prev l : List (Int × Int)) : Decidable (spawnChain prev l) :=
  spawnChainDec prev l

/-! ## Claim C5: shrink events -/

/-- Replace a room's danger-zone set. -/
def withDZ (room : Room) (dz : List (Int × Int)) : Room :=
  { room with dangerZones := dz }

/-- A coordinate of the original outer ring of the 200x200 board. -/
def isBorderCoord (q : Int × Int) : Prop :=
  inBoundsCoord q
  ∧ (q.1 = 0 ∨ q.1 = (BOARD_SIZE : Int) - 1 ∨ q.2 = 0 ∨ q.2 = (BOARD_SIZE : Int) - 1)

instance (q : Int × Int) : Decidable (isBorderCoord q) := by
  unfold isBorderCoord
  infer_instance

/-- The room `roomW` with its entire outer ring already claimed as danger
zones. -/
def roomFullDZ : Room :=
  { roomW with dangerZones := borderSquares roomW }

/-! ## Claim C1: board-piece duality -/

/-- Replace a room's players and board. -/
def withPB (room : Room) (players : List Player) (b : Int → Int → Option Piece) :
    Room :=
  { room with players := players, board := b }

/-- A rook for player "B" at (3,4), next to player "A"'s king. -/
def pRookB : Piece :=
  { id := "B_1", type := PieceType.rook, color := "black", playerId := "B",
    row := 3, col := 4, canMove := true, cooldownExpires := 0 }

def playerAEnd : Player := { playerA with pieces := [pKingA] }

def playerBEnd : Player := { playerB with pieces := [pRookB] }

def boardEnd : Int → Int → Option Piece := fun r c =>
  if r = 3 ∧ c = 3 then some pKingA
  else if r = 3 ∧ c = 4 then some pRookB
  else none

/-- A two-player endgame: capturing the rook eliminates player "B". -/
def roomEnd : Room :=
  { phase := Phase.playing, players := [playerAEnd, playerBEnd], board := boardEnd,
    woods := [], dangerZones := [], shrinkTimer := 60, shrinkInterval := true,
    turn := 0, admin := some "A" }

/-! ### Theorems -/

/-! ## Frame lemmas: which fields each operation leaves untouched -/

theorem removePiece_board (room : Room) (p : Piece) :
    (removePieceFromGame room p).board = room.board := rfl

theorem removePiece_phase (room : Room) (p : Piece) :
    (removePieceFromGame room p).phase = room.phase := rfl

theorem removePiece_shrinkInterval (room : Room) (p : Piece) :
    (removePieceFromGame room p).shrinkInterval = room.shrinkInterval := rfl

theorem removePiece_dangerZones (room : Room) (p : Piece) :
    (removePieceFromGame room p).dangerZones = room.dangerZones := rfl

theorem eliminateAt_board (room : Room) (sq : Int × Int) :
    (eliminateAt room sq).board = room.board := by
  unfold eliminateAt
  split <;> rfl

theorem eliminateAt_phase (room : Room) (sq : Int × Int) :
    (eliminateAt room sq).phase = room.phase := by
  unfold eliminateAt
  split <;> rfl

theorem eliminateAt_shrinkInterval (room : Room) (sq : Int × Int) :
    (eliminateAt room sq).shrinkInterval = room.shrinkInterval := by
  unfold eliminateAt
  split <;> rfl

theorem eliminateAt_dangerZones (room : Room) (sq : Int × Int) :
    (eliminateAt room sq).dangerZones = room.dangerZones := by
  unfold eliminateAt
  split <;> rfl

theorem shrinkSelect_board (room : Room) (bs : List (Int × Int))
    (rnd : Nat → Nat) (i : Nat) :
    (shrinkSelect room bs rnd i).1.board = room.board := by
  unfold shrinkSelect
  split
  · exact eliminateAt_board _ _
  · rfl

theorem shrinkSelect_phase (room : Room) (bs : List (Int × Int))
    (rnd : Nat → Nat) (i : Nat) :
    (shrinkSelect room bs rnd i).1.phase = room.phase := by
  unfold shrinkSelect
  split
  · exact eliminateAt_phase _ _
  · rfl

theorem shrinkSelect_shrinkInterval (room : Room) (bs : List (Int × Int))
    (rnd : Nat → Nat) (i : Nat) :
    (shrinkSelect room bs rnd i).1.shrinkInterval = room.shrinkInterval := by
  unfold shrinkSelect
  split
  · exact eliminateAt_shrinkInterval _ _
  · rfl

theorem shrinkBoard_board (room : Room) (rnd : Nat → Nat) :
    (shrinkBoard room rnd).board = room.board := by
  unfold shrinkBoard
  rw [shrinkSelect_board, shrinkSelect_board]

theorem shrinkBoard_phase (room : Room) (rnd : Nat → Nat) :
    (shrinkBoard room rnd).phase = room.phase := by
  unfold shrinkBoard
  rw [shrinkSelect_phase, shrinkSelect_phase]

theorem shrinkBoard_shrinkInterval (room : Room) (rnd : Nat → Nat) :
    (shrinkBoard room rnd).shrinkInterval = room.shrinkInterval := by
  unfold shrinkBoard
  rw [shrinkSelect_shrinkInterval, shrinkSelect_shrinkInterval]

theorem removePlayer_phase (room : Room) (pid : String) :
    (removePlayer room pid).phase = room.phase := by
  unfold removePlayer
  split
  · rfl
  · dsimp only
    split
    · split <;> rfl
    · rfl

theorem removePlayer_shrinkInterval (room : Room) (pid : String) :
    (removePlayer room pid).shrinkInterval = room.shrinkInterval := by
  unfold removePlayer
  split
  · rfl
  · dsimp only
    split
    · split <;> rfl
    · rfl

/-! ## Preservation of the alive-iff-pieces invariant (claim C3) -/

theorem removePiece_aliveIff (room : Room) (piece : Piece)
    (h : AliveIffPieces room) : AliveIffPieces (removePieceFromGame room piece) := by
  intro pl hpl
  simp only [removePieceFromGame, List.mem_map] at hpl
  obtain ⟨pl0, hpl0, rfl⟩ := hpl
  by_cases hid : pl0.id = piece.playerId
  · simp only [hid, if_true]
    by_cases hps : (pl0.pieces.filter (fun p => p.id ≠ piece.id)).length = 0
    · have hnil : pl0.pieces.filter (fun p => p.id ≠ piece.id) = [] :=
        List.length_eq_zero.mp hps
      rw [hnil]
      simp
    · have hne : pl0.pieces ≠ [] := by
        intro hnil
        simp [hnil] at hps
      have halive : pl0.alive = true := by
        cases hb : pl0.alive
        · exact absurd ((h pl0 hpl0).mp hb) hne
        · rfl
      simp only [if_neg hps, halive]
      constructor
      · intro hcontra; cases hcontra
      · intro hnil
        exact absurd (List.length_eq_zero.mpr hnil) hps
  · simp only [hid, if_false, if_neg hid]
    exact h pl0 hpl0

theorem executeMove_aliveIff (room : Room) (piece : Piece) (toRow toCol now : Int)
    (h : AliveIffPieces room) :
    AliveIffPieces (executeMove room piece toRow toCol now).1 := by
  have h1 : AliveIffPieces { room with board := setCell room.board piece.row piece.col none } := h
  unfold executeMove
  dsimp only
  intro pl hpl
  simp only [List.mem_map] at hpl
  obtain ⟨pl0, hpl0, rfl⟩ := hpl
  have h2 : AliveIffPieces
      (match setCell room.board piece.row piece.col none toRow toCol with
       | some captured =>
           removePieceFromGame { room with board := setCell room.board piece.row piece.col none } captured
       | none => { room with board := setCell room.board piece.row piece.col none }) := by
    split
    · exact removePiece_aliveIff _ _ h1
    · exact h1
  have := h2 pl0 hpl0
  simpa [List.map_eq_nil_iff] using this

theorem eliminateAt_aliveIff (room : Room) (sq : Int × Int)
    (h : AliveIffPieces room) : AliveIffPieces (eliminateAt room sq) := by
  unfold eliminateAt
  split
  · exact removePiece_aliveIff _ _ h
  · exact h

theorem shrinkSelect_aliveIff (room : Room) (bs : List (Int × Int))
    (rnd : Nat → Nat) (i : Nat) (h : AliveIffPieces room) :
    AliveIffPieces (shrinkSelect room bs rnd i).1 := by
  unfold shrinkSelect
  split
  · exact eliminateAt_aliveIff _ _ h
  · exact h

theorem shrinkBoard_aliveIff (room : Room) (rnd : Nat → Nat)
    (h : AliveIffPieces room) : AliveIffPieces (shrinkBoard room rnd) := by
  unfold shrinkBoard
  exact shrinkSelect_aliveIff _ _ _ _ (shrinkSelect_aliveIff _ _ _ _ h)

theorem removePlayer_aliveIff (room : Room) (pid : String)
    (h : AliveIffPieces room) : AliveIffPieces (removePlayer room pid) := by
  unfold removePlayer
  split
  · exact h
  · dsimp only
    split
    · split
      · rename_i hcond hlist heq
        exfalso
        rw [heq] at hcond
        exact absurd hcond.2 (by simp)
      · rename_i first rest heq
        intro pl hpl
        rcases List.mem_cons.mp hpl with hfirst | hrest
        · subst hfirst
          have hf : first ∈ room.players.filter (fun pl => pl.id ≠ pid) := by
            rw [heq]; exact List.mem_cons_self _ _
          exact h first (List.mem_of_mem_filter hf)
        · have hr : pl ∈ room.players.filter (fun pl => pl.id ≠ pid) := by
            rw [heq]; exact List.mem_cons_of_mem _ hrest
          exact h pl (List.mem_of_mem_filter hr)
    · intro pl hpl
      exact h pl (List.mem_of_mem_filter hpl)

/-! ## Claim C3 -/

/-- C3: for every player, `alive = false` iff that player's piece list is
empty, and this biconditional is preserved by every capture
(`removePieceFromGame`, and the full `executeMove` capture path), every
shrink elimination (`shrinkBoard`), and every player removal
(`removePlayer`) performed from a state satisfying it. -/
theorem c3_alive_iff_pieces (room : Room) (h : AliveIffPieces room) :
    (∀ piece, AliveIffPieces (removePieceFromGame room piece))
    ∧ (∀ piece toRow toCol now, AliveIffPieces (executeMove room piece toRow toCol now).1)
    ∧ (∀ rnd, AliveIffPieces (shrinkBoard room rnd))
    ∧ (∀ pid, AliveIffPieces (removePlayer room pid)) :=
  ⟨fun piece => removePiece_aliveIff room piece h,
   fun piece toRow toCol now => executeMove_aliveIff room piece toRow toCol now h,
   fun rnd => shrinkBoard_aliveIff room rnd h,
   fun pid => removePlayer_aliveIff room pid h⟩

/-- Witness for C3 at the concrete room `roomW`. -/
theorem c3_witness : AliveIffPieces (shrinkBoard roomW rnd0) :=
  (c3_alive_iff_pieces roomW (by unfold AliveIffPieces; decide)).2.2.1 rnd0

/-! ## Claims C4 and C10: move validation -/

/-- Any one of the C4 rejection conditions forces `isValidMove` to `false`. -/
theorem isValidMove_false_of_bad (room : Room) (piece : Piece) (toRow toCol : Int)
    (hbad : toRow < 0 ∨ toRow ≥ (BOARD_SIZE : Int) ∨ toCol < 0 ∨ toCol ≥ (BOARD_SIZE : Int)
          ∨ (toRow, toCol) ∈ room.woods ∨ (toRow, toCol) ∈ room.dangerZones
          ∨ (piece.type ≠ PieceType.king ∧ piece.canMove = false)
          ∨ (∃ king, (playersGet room.players piece.playerId).bind
                (fun pl => pl.pieces.find? (fun p => p.type = PieceType.king)) = some king
              ∧ max (toRow - king.row).natAbs (toCol - king.col).natAbs > 10)) :
    isValidMove room piece toRow toCol = false := by
  unfold isValidMove
  split_ifs with h1 h2 h3
  · rfl
  · rfl
  · rfl
  · rcases hbad with hb | hb | hb | hb | hb | hb | hb | hb
    · exact absurd (Or.inl hb) h1
    · exact absurd (Or.inr (Or.inl hb)) h1
    · exact absurd (Or.inr (Or.inr (Or.inl hb))) h1
    · exact absurd (Or.inr (Or.inr (Or.inr hb))) h1
    · exact absurd (Or.inl hb) h2
    · exact absurd (Or.inr hb) h2
    · exact absurd ⟨hb.2, hb.1⟩ h3
    · obtain ⟨king, hk, hdist⟩ := hb
      obtain ⟨pl, hpl, hfind⟩ := Option.bind_eq_some.mp hk
      rw [hpl]
      dsimp only
      rw [hfind]
      simp [hdist]

/-- C4: `movePieceHandler` rejects, as a no-op on the room with the invalid
move reported only to the caller (no broadcast, no scheduled cooldown),
every move whose destination is out of bounds, in `woods`, in
`dangerZones`, farther than Chebyshev distance 10 from the acting player's
own king, or whose piece is a non-king with its cooldown gate closed. -/
theorem c4_invalid_move_rejected (room : Room) (player : Player) (piece : Piece)
    (senderId pieceId : String) (fromRow fromCol toRow toCol now : Int)
    (hphase : room.phase = Phase.playing)
    (hget : playersGet room.players senderId = some player)
    (halive : player.alive = true)
    (hfind : findPiece room pieceId = some piece)
    (hown : piece.playerId = senderId)
    (hbad : toRow < 0 ∨ toRow ≥ (BOARD_SIZE : Int) ∨ toCol < 0 ∨ toCol ≥ (BOARD_SIZE : Int)
          ∨ (toRow, toCol) ∈ room.woods ∨ (toRow, toCol) ∈ room.dangerZones
          ∨ (piece.type ≠ PieceType.king ∧ piece.canMove = false)
          ∨ (∃ king, (playersGet room.players piece.playerId).bind
                (fun pl => pl.pieces.find? (fun p => p.type = PieceType.king)) = some king
              ∧ max (toRow - king.row).natAbs (toCol - king.col).natAbs > 10)) :
    movePieceHandler room senderId pieceId fromRow fromCol toRow toCol now
      = (room, [Emit.toCaller Msg.invalidMove], []) := by
  unfold movePieceHandler
  rw [if_neg (by simp [hphase]), hget]
  simp only [halive]
  rw [hfind]
  simp only [hown, isValidMove_false_of_bad room piece toRow toCol hbad]
  simp

/-- Witness for C4: an out-of-bounds destination is rejected with no state
change and a caller-only notice. -/
theorem c4_witness :
    movePieceHandler roomW "A" "A_8" 4 3 (-1) 3 0
      = (roomW, [Emit.toCaller Msg.invalidMove], []) :=
  c4_invalid_move_rejected roomW playerA pPawnA "A" "A_8" 4 3 (-1) 3 0
    (by decide) (by decide) (by decide) (by decide) (by decide)
    (Or.inl (by decide))

/-- C10: when the acting player's piece list holds no king, `isValidMove`
skips the leash-distance check entirely: any in-bounds destination outside
`woods` and `dangerZones` that passes the cooldown gate is accepted,
regardless of distance. -/
theorem c10_no_king_skips_leash (room : Room) (piece : Piece) (pl : Player)
    (toRow toCol : Int)
    (hget : playersGet room.players piece.playerId = some pl)
    (hnoking : ∀ p ∈ pl.pieces, p.type ≠ PieceType.king)
    (hrow : 0 ≤ toRow) (hrow2 : toRow < (BOARD_SIZE : Int))
    (hcol : 0 ≤ toCol) (hcol2 : toCol < (BOARD_SIZE : Int))
    (hwoods : (toRow, toCol) ∉ room.woods) (hdz : (toRow, toCol) ∉ room.dangerZones)
    (hcool : piece.canMove = true ∨ piece.type = PieceType.king) :
    isValidMove room piece toRow toCol = true := by
  unfold isValidMove
  rw [if_neg (by push_neg; refine ⟨by omega, by omega, by omega, by omega⟩)]
  rw [if_neg (by simp [hwoods, hdz])]
  rw [if_neg (by rcases hcool with hc | hc <;> simp [hc])]
  rw [hget]
  have hfk : pl.pieces.find? (fun p => p.type = PieceType.king) = none := by
    rw [List.find?_eq_none]
    intro p hp
    simpa using hnoking p hp
  dsimp only
  rw [hfk]

/-- Witness for C10: the kingless player "A" may move its pawn from (0,0)
all the way to (199,199) — Chebyshev distance 199 — and the move validates. -/
theorem c10_witness : isValidMove roomCex pEdgeA 199 199 = true :=
  c10_no_king_skips_leash roomCex pEdgeA playerACex 199 199
    (by decide) (by decide) (by decide) (by decide) (by decide) (by decide)
    (by decide) (by decide) (Or.inl (by decide))

/-! ## Claims C6 and C7: move execution -/

theorem setCell_same (b : Int → Int → Option Piece) (r c : Int) (v : Option Piece) :
    setCell b r c v r c = v := by simp [setCell]

theorem setCell_other (b : Int → Int → Option Piece) (r c : Int) (v : Option Piece)
    (r' c' : Int) (h : ¬(r' = r ∧ c' = c)) : setCell b r c v r' c' = b r' c' := by
  simp only [setCell, if_neg h]

/-- C6: after a move by a non-king piece the piece lands with `canMove =
false` and expiry `now + 5000`, and exactly one 5-second one-shot task is
scheduled whose callback flips `canMove` back on and broadcasts the
cooldown-expired notice; a king lands with its cooldown state untouched, no
task is scheduled, and `isValidMove` never consults a king's `canMove`
flag. -/
theorem c6_cooldown (room : Room) (piece : Piece) (toRow toCol now : Int) :
    (piece.type ≠ PieceType.king →
        (executeMove room piece toRow toCol now).2
          = [{ pieceId := piece.id, fireAt := now + 5000 }]
      ∧ (executeMove room piece toRow toCol now).1.board toRow toCol
          = some { piece with row := toRow, col := toCol, canMove := false,
                              cooldownExpires := now + 5000 }
      ∧ (∀ room2 : Room,
          (cooldownCallback room2 piece.id).2
            = [Emit.toRoom (Msg.cooldownExpired piece.id)]
          ∧ ∀ pl ∈ (cooldownCallback room2 piece.id).1.players,
              ∀ p ∈ pl.pieces, p.id = piece.id → p.canMove = true))
    ∧ (piece.type = PieceType.king →
        (executeMove room piece toRow toCol now).2 = []
      ∧ (executeMove room piece toRow toCol now).1.board toRow toCol
          = some { piece with row := toRow, col := toCol }
      ∧ ∀ cm : Bool, isValidMove room { piece with canMove := cm } toRow toCol
          = isValidMove room { piece with canMove := true } toRow toCol) := by
  constructor
  · intro hnk
    refine ⟨?_, ?_, ?_⟩
    · unfold executeMove
      dsimp only
      rw [if_pos hnk]
    · unfold executeMove
      dsimp only
      rw [setCell_same]
      unfold movedPieceOf
      rw [if_pos hnk]
    · intro room2
      constructor
      · rfl
      · intro pl hpl p hp hid
        unfold cooldownCallback at hpl
        simp only [List.mem_map] at hpl
        obtain ⟨pl0, hpl0, rfl⟩ := hpl
        simp only [List.mem_map] at hp
        obtain ⟨p0, hp0, rfl⟩ := hp
        by_cases h0 : p0.id = piece.id
        · simp [h0]
        · rw [if_neg h0] at hid ⊢
          exact absurd hid h0
  · intro hk
    refine ⟨?_, ?_, ?_⟩
    · unfold executeMove
      dsimp only
      rw [if_neg (by simp [hk])]
    · unfold executeMove
      dsimp only
      rw [setCell_same]
      unfold movedPieceOf
      rw [if_neg (by simp [hk])]
    · intro cm
      unfold isValidMove
      dsimp only
      simp [hk]

/-- Witness for C6: moving the pawn "A_8" at time 1000 schedules exactly the
one-shot cooldown task firing at 6000. -/
theorem c6_witness :
    (executeMove roomW pPawnA 5 3 1000).2 = [{ pieceId := "A_8", fireAt := 6000 }] :=
  ((c6_cooldown roomW pPawnA 5 3 1000).1 (by decide)).1

/-- C7: when the destination cell of a move holds a piece other than the
mover — whether owned by the acting player or an opponent; no same-owner
check is made — that occupant is detached from its owner's piece list, the
origin cell is cleared, and the mover lands on the destination with updated
coordinates. -/
theorem c7_capture_any_occupant (room : Room) (piece q : Piece) (toRow toCol now : Int)
    (hocc : room.board toRow toCol = some q)
    (hne : (piece.row, piece.col) ≠ (toRow, toCol)) :
    ((executeMove room piece toRow toCol now).1.board piece.row piece.col = none)
    ∧ ((executeMove room piece toRow toCol now).1.board toRow toCol
        = some (movedPieceOf piece toRow toCol now))
    ∧ (∀ pl ∈ (executeMove room piece toRow toCol now).1.players,
        pl.id = q.playerId → ∀ p ∈ pl.pieces, p.id ≠ q.id) := by
  have hne1 : ¬(toRow = piece.row ∧ toCol = piece.col) := by
    intro h
    exact hne (by simp [h.1, h.2])
  have hne2 : ¬(piece.row = toRow ∧ piece.col = toCol) := by
    intro h
    exact hne (by simp [h.1, h.2])
  have hb1 : setCell room.board piece.row piece.col none toRow toCol = some q := by
    rw [setCell_other _ _ _ _ _ _ hne1, hocc]
  unfold executeMove
  dsimp only
  rw [hb1]
  dsimp only
  refine ⟨?_, ?_, ?_⟩
  · rw [setCell_other _ _ _ _ _ _ hne2]
    exact setCell_same _ _ _ _
  · rw [setCell_same]
  · intro pl hpl hid p hp
    simp only [List.mem_map] at hpl
    obtain ⟨pl1, hpl1, rfl⟩ := hpl
    simp only [List.mem_map] at hp
    obtain ⟨p0, hp0, rfl⟩ := hp
    simp only [removePieceFromGame, List.mem_map] at hpl1
    obtain ⟨pl0, hpl0, rfl⟩ := hpl1
    dsimp only at hid hp0 ⊢
    by_cases hq : pl0.id = q.playerId
    · rw [if_pos hq] at hid hp0
      dsimp only at hid hp0
      have hp0id : p0.id ≠ q.id := by
        have := List.of_mem_filter hp0
        simpa using this
      by_cases hmv : p0.id = piece.id
      · rw [if_pos hmv]
        intro hcontra
        unfold movedPieceOf at hcontra
        have : piece.id = q.id := by
          by_cases hkk : piece.type ≠ PieceType.king
          · rw [if_pos hkk] at hcontra; exact hcontra
          · rw [if_neg hkk] at hcontra; exact hcontra
        rw [hmv] at hp0id
        exact hp0id this
      · rw [if_neg hmv]
        exact hp0id
    · rw [if_neg hq] at hid
      exact absurd hid hq

/-- Witness for C7, exercising the absent same-owner check: player "A"'s
pawn captures player "A"'s own king. -/
theorem c7_witness :
    ((executeMove roomW pPawnA 3 3 0).1.board pPawnA.row pPawnA.col = none)
    ∧ ((executeMove roomW pPawnA 3 3 0).1.board 3 3
        = some (movedPieceOf pPawnA 3 3 0))
    ∧ (∀ pl ∈ (executeMove roomW pPawnA 3 3 0).1.players,
        pl.id = pKingA.playerId → ∀ p ∈ pl.pieces, p.id ≠ pKingA.id) :=
  c7_capture_any_occupant roomW pPawnA pKingA 3 3 0 (by decide) (by decide)

theorem mem_setAdd (s : List (Int × Int)) (x q : Int × Int) :
    q ∈ setAdd s x ↔ q ∈ s ∨ q = x := by
  unfold setAdd
  split
  · rename_i hx
    constructor
    · exact Or.inl
    · rintro (h | rfl)
      · exact h
      · exact hx
  · simp [List.mem_append]

theorem subDrawStep_bounds (woods : List (Int × Int)) (cr cc : Int)
    (r : Nat → Nat) (k : Nat) (h : ∀ q ∈ woods, inBoundsCoord q) :
    ∀ q ∈ (subDrawStep woods cr cc r k).1, inBoundsCoord q := by
  unfold subDrawStep
  dsimp only
  split
  · rename_i hin
    intro q hq
    rcases (mem_setAdd _ _ _).mp hq with hq | rfl
    · exact h q hq
    · simpa [inBoundsCoord] using hin
  · exact h

theorem patchLoop_bounds (n : Nat) (woods : List (Int × Int)) (cr cc : Int)
    (r : Nat → Nat) (k : Nat) (h : ∀ q ∈ woods, inBoundsCoord q) :
    ∀ q ∈ (patchLoop n woods cr cc r k).1, inBoundsCoord q := by
  induction n generalizing woods k with
  | zero => exact h
  | succ m ih =>
    unfold patchLoop
    exact ih _ _ (subDrawStep_bounds woods cr cc r k h)

theorem woodsLoop_bounds (n : Nat) (woods : List (Int × Int))
    (r : Nat → Nat) (k : Nat) (h : ∀ q ∈ woods, inBoundsCoord q) :
    ∀ q ∈ (woodsLoop n woods r k).1, inBoundsCoord q := by
  induction n generalizing woods k with
  | zero => exact h
  | succ m ih =>
    unfold woodsLoop
    exact ih _ _ (patchLoop_bounds _ woods _ _ r _ h)

/-- C8 (amended): each terrain sub-draw offsets the patch center by
independent uniform integers in [-3,2] on each axis (the source draws
`Math.floor(Math.random()*6) - 3`, which never yields +3), adds the offset
coordinate to the woods set exactly when it is in bounds, and adding is
idempotent on duplicates; consequently every generated woods coordinate is
in bounds. -/
theorem c8_woods_subdraw (r : Nat → Nat) :
    (∀ q ∈ generateWoods r, inBoundsCoord q)
    ∧ (∀ x : Nat, -3 ≤ randOffset x ∧ randOffset x ≤ 2)
    ∧ (∀ v : Int, -3 ≤ v → v ≤ 2 → ∃ x : Nat, randOffset x = v)
    ∧ (∀ (woods : List (Int × Int)) (cr cc : Int) (k : Nat) (q : Int × Int),
        q ∈ (subDrawStep woods cr cc r k).1 ↔
          q ∈ woods ∨ (q = (cr + randOffset (r k), cc + randOffset (r (k + 1)))
            ∧ inBoundsCoord q))
    ∧ (∀ (s : List (Int × Int)) (x : Int × Int), x ∈ s → setAdd s x = s) := by
  refine ⟨?_, ?_, ?_, ?_, ?_⟩
  · exact woodsLoop_bounds 2000 [] r 0 (by simp)
  · intro x
    have h6 : x % 6 < 6 := Nat.mod_lt _ (by norm_num)
    unfold randOffset
    omega
  · intro v h1 h2
    refine ⟨(v + 3).toNat, ?_⟩
    unfold randOffset
    omega
  · intro woods cr cc k q
    unfold subDrawStep
    dsimp only
    split
    · rename_i hin
      rw [mem_setAdd]
      constructor
      · rintro (hq | rfl)
        · exact Or.inl hq
        · exact Or.inr ⟨rfl, by simpa [inBoundsCoord] using hin⟩
      · rintro (hq | ⟨rfl, hb⟩)
        · exact Or.inl hq
        · exact Or.inr rfl
    · rename_i hout
      constructor
      · exact Or.inl
      · rintro (hq | ⟨rfl, hb⟩)
        · exact hq
        · exact absurd (by simpa [inBoundsCoord] using hb) hout
  · intro s x hx
    unfold setAdd
    rw [if_pos hx]

/-- Witness for C8: adding an already-present woods coordinate is a no-op,
and the extreme offsets -3 and +2 are both drawable. -/
theorem c8_witness :
    setAdd [((7 : Int), (7 : Int))] (7, 7) = [((7 : Int), (7 : Int))]
    ∧ (∃ x : Nat, randOffset x = -3) ∧ (∃ x : Nat, randOffset x = 2) :=
  ⟨(c8_woods_subdraw rnd0).2.2.2.2 _ _ (by decide),
   (c8_woods_subdraw rnd0).2.2.1 (-3) (by norm_num) (by norm_num),
   (c8_woods_subdraw rnd0).2.2.1 2 (by norm_num) (by norm_num)⟩

/-- C8 counterexample: the claim says the per-axis offsets are uniform over
[-3,3], but the draw `Math.floor(Math.random()*6) - 3` can never produce
+3: no draw value maps to offset 3. -/
theorem c8_counterexample :
    ¬ (∀ v : Int, -3 ≤ v ∧ v ≤ 3 → ∃ x : Nat, randOffset x = v) := by
  intro h
  obtain ⟨x, hx⟩ := h 3 (by norm_num)
  have h6 : x % 6 < 6 := Nat.mod_lt _ (by norm_num)
  unfold randOffset at hx
  omega

theorem spawnChain_snoc (l : List (Int × Int)) (prev : List (Int × Int))
    (p : Int × Int) (h : spawnChain prev l) (hp : spawnOk (prev ++ l) p) :
    spawnChain prev (l ++ [p]) := by
  induction l generalizing prev with
  | nil =>
    refine ⟨by simpa using hp, trivial⟩
  | cons a t ih =>
    refine ⟨h.1, ih (prev ++ [a]) h.2 ?_⟩
    simpa [List.append_assoc] using hp

theorem spawnAttemptLoop_some (positions : List (Int × Int)) (r : Nat → Nat)
    (fuel k k' : Nat) (p : Int × Int)
    (h : spawnAttemptLoop positions r k fuel = (some p, k')) :
    ¬ tooCloseTo positions p.1 p.2 ∧ 5 ≤ p.1 ∧ p.1 < 195 ∧ 5 ≤ p.2 ∧ p.2 < 195 := by
  induction fuel generalizing k with
  | zero => simp [spawnAttemptLoop] at h
  | succ m ih =>
    unfold spawnAttemptLoop at h
    dsimp only at h
    split at h
    · exact ih _ h
    · rename_i hfar
      rw [Prod.mk.injEq] at h
      obtain ⟨hsome, hk⟩ := h
      injection hsome with hp
      subst hp
      have hr : r k % (BOARD_SIZE - 10) < 190 := Nat.mod_lt _ (by norm_num [BOARD_SIZE])
      have hc : r (k + 1) % (BOARD_SIZE - 10) < 190 := Nat.mod_lt _ (by norm_num [BOARD_SIZE])
      exact ⟨hfar, by omega, by omega, by omega, by omega⟩

theorem spawnFallback_line (r : Nat → Nat) (k : Nat) :
    ((spawnFallback r k).1.1 = 5 ∨ (spawnFallback r k).1.1 = 195
      ∨ (spawnFallback r k).1.2 = 5 ∨ (spawnFallback r k).1.2 = 195)
    ∧ inBoundsCoord (spawnFallback r k).1 := by
  have ho : r (k + 1) % BOARD_SIZE < 200 := Nat.mod_lt _ (by norm_num [BOARD_SIZE])
  unfold spawnFallback
  dsimp only
  split_ifs with h1 h2 h3
  · exact ⟨Or.inl rfl, by simp [inBoundsCoord, BOARD_SIZE]; omega⟩
  · refine ⟨Or.inr (Or.inl (by norm_num [BOARD_SIZE])), ?_⟩
    simp [inBoundsCoord, BOARD_SIZE]
    omega
  · exact ⟨Or.inr (Or.inr (Or.inl rfl)), by simp [inBoundsCoord, BOARD_SIZE]; omega⟩
  · refine ⟨Or.inr (Or.inr (Or.inr (by norm_num [BOARD_SIZE]))), ?_⟩
    simp [inBoundsCoord, BOARD_SIZE]
    omega

theorem spawnLoop_ok (r : Nat → Nat) (n : Nat) (acc : List (Int × Int)) (k : Nat)
    (hchain : spawnChain [] acc) (hb : ∀ p ∈ acc, inBoundsCoord p) :
    (spawnLoop r n acc k).length = acc.length + n
    ∧ spawnChain [] (spawnLoop r n acc k)
    ∧ ∀ p ∈ spawnLoop r n acc k, inBoundsCoord p := by
  induction n generalizing acc k with
  | zero => exact ⟨by simp [spawnLoop], hchain, hb⟩
  | succ m ih =>
    unfold spawnLoop
    dsimp only
    rcases hres : spawnAttemptLoop acc r k 1000 with ⟨op, k1⟩
    cases op with
    | some p =>
      dsimp only
      have hs := spawnAttemptLoop_some acc r 1000 k k1 p hres
      have hchain' : spawnChain [] (acc ++ [p]) := by
        refine spawnChain_snoc acc [] p hchain ?_
        refine Or.inl ⟨hs.2.1, hs.2.2.1, hs.2.2.2.1, hs.2.2.2.2, ?_⟩
        intro q hq
        by_contra hlt
        exact hs.1 ⟨q, by simpa using hq, by omega⟩
      have hb' : ∀ x ∈ acc ++ [p], inBoundsCoord x := by
        intro x hx
        rcases List.mem_append.mp hx with hx | hx
        · exact hb x hx
        · rcases List.mem_singleton.mp hx with rfl
          exact ⟨by omega, by simp [BOARD_SIZE]; omega, by omega, by simp [BOARD_SIZE]; omega⟩
      obtain ⟨hlen, hch, hbb⟩ := ih (acc ++ [p]) k1 hchain' hb'
      refine ⟨?_, hch, hbb⟩
      simp only [List.length_append, List.length_singleton] at hlen
      omega
    | none =>
      dsimp only
      have hf := spawnFallback_line r k1
      have hchain' : spawnChain [] (acc ++ [(spawnFallback r k1).1]) := by
        refine spawnChain_snoc acc [] _ hchain ?_
        exact Or.inr hf.1
      have hb' : ∀ x ∈ acc ++ [(spawnFallback r k1).1], inBoundsCoord x := by
        intro x hx
        rcases List.mem_append.mp hx with hx | hx
        · exact hb x hx
        · rcases List.mem_singleton.mp hx with rfl
          exact hf.2
      obtain ⟨hlen, hch, hbb⟩ := ih (acc ++ [(spawnFallback r k1).1]) (spawnFallback r k1).2 hchain' hb'
      refine ⟨?_, hch, hbb⟩
      simp only [List.length_append, List.length_singleton] at hlen
      omega

/-- C9: spawn placement for `playerCount` joining players always yields
exactly `playerCount` coordinates, each within board bounds; every position
is either budget-accepted — inside the inset region [5,195) on both axes
with squared Euclidean distance at least 400 (distance at least 20) to every
previously accepted spawn — or lies on one of the four fallback lines
row = 5, row = 195, col = 5, col = 195 (accepted unconditionally). -/
theorem c9_spawn_positions (playerCount : Nat) (r : Nat → Nat) :
    (generateSpawnPositions playerCount r).length = playerCount
    ∧ spawnChain [] (generateSpawnPositions playerCount r)
    ∧ ∀ p ∈ generateSpawnPositions playerCount r, inBoundsCoord p := by
  have h := spawnLoop_ok r playerCount [] 0 trivial (by simp)
  simpa [generateSpawnPositions] using h

set_option maxRecDepth 4000 in

/-- Witness for C9 at two players and the constant-zero draw stream (the
second player exhausts the budget and takes the edge fallback). -/
theorem c9_witness :
    (generateSpawnPositions 2 rnd0).length = 2
    ∧ spawnChain [] (generateSpawnPositions 2 rnd0) :=
  ⟨(c9_spawn_positions 2 rnd0).1, (c9_spawn_positions 2 rnd0).2.1⟩

theorem mem_borderRowScan (dz : List (Int × Int)) (row : Nat) (q : Int × Int) :
    q ∈ borderRowScan dz row ↔
      ∃ col < BOARD_SIZE,
        (row = 0 ∨ row = BOARD_SIZE - 1 ∨ col = 0 ∨ col = BOARD_SIZE - 1)
        ∧ ((row : Int), (col : Int)) ∉ dz ∧ q = ((row : Int), (col : Int)) := by
  unfold borderRowScan
  rw [List.mem_filterMap]
  constructor
  · rintro ⟨col, hcol, hf⟩
    rw [List.mem_range] at hcol
    split at hf
    · rename_i hcond
      injection hf with hf
      exact ⟨col, hcol, hcond.1, hcond.2, hf.symm⟩
    · cases hf
  · rintro ⟨col, hcol, hcond, hdz, rfl⟩
    exact ⟨col, List.mem_range.mpr hcol, by rw [if_pos ⟨hcond, hdz⟩]⟩

theorem mem_borderSquares (room : Room) (q : Int × Int) :
    q ∈ borderSquares room ↔ isBorderCoord q ∧ q ∉ room.dangerZones := by
  unfold borderSquares
  rw [List.mem_flatMap]
  constructor
  · rintro ⟨row, hrow, hq⟩
    rw [List.mem_range] at hrow
    obtain ⟨col, hcol, hcond, hdz, rfl⟩ := (mem_borderRowScan _ _ _).mp hq
    refine ⟨⟨⟨by omega, ?_, by omega, ?_⟩, ?_⟩, hdz⟩
    · simp only [BOARD_SIZE] at hrow ⊢
      omega
    · simp only [BOARD_SIZE] at hcol ⊢
      omega
    · simp only [BOARD_SIZE] at hcond ⊢
      rcases hcond with h | h | h | h
      · exact Or.inl (by omega)
      · exact Or.inr (Or.inl (by omega))
      · exact Or.inr (Or.inr (Or.inl (by omega)))
      · exact Or.inr (Or.inr (Or.inr (by omega)))
  · rintro ⟨⟨hb, hedge⟩, hdz⟩
    have hq1 : ((q.1.toNat : Int)) = q.1 := Int.toNat_of_nonneg hb.1
    have hq2 : ((q.2.toNat : Int)) = q.2 := Int.toNat_of_nonneg hb.2.2.1
    have hqeq : ((q.1.toNat : Int), (q.2.toNat : Int)) = q := by
      rw [hq1, hq2]
    refine ⟨q.1.toNat, ?_, (mem_borderRowScan _ _ _).mpr
      ⟨q.2.toNat, ?_, ?_, ?_, ?_⟩⟩
    · rw [List.mem_range]
      simp only [inBoundsCoord, BOARD_SIZE] at hb ⊢
      omega
    · simp only [inBoundsCoord, BOARD_SIZE] at hb ⊢
      omega
    · simp only [BOARD_SIZE] at hedge ⊢
      rcases hedge with h | h | h | h
      · exact Or.inl (by omega)
      · exact Or.inr (Or.inl (by omega))
      · exact Or.inr (Or.inr (Or.inl (by omega)))
      · exact Or.inr (Or.inr (Or.inr (by omega)))
    · rw [hqeq]
      exact hdz
    · exact hqeq.symm

theorem borderSquares_nodup (room : Room) : (borderSquares room).Nodup := by
  unfold borderSquares
  rw [List.nodup_flatMap]
  constructor
  · intro row _
    unfold borderRowScan
    refine List.Nodup.filterMap ?_ (List.nodup_range _)
    intro a b q ha hb
    split at ha
    · injection ha with ha
      split at hb
      · injection hb with hb
        rw [← hb] at ha
        have := (Prod.mk.injEq _ _ _ _).mp ha
        exact_mod_cast this.2
      · cases hb
    · cases ha
  · have hnd := List.nodup_range BOARD_SIZE
    refine hnd.imp ?_
    intro r1 r2 hne q h1 h2
    obtain ⟨c1, _, _, _, rfl⟩ := (mem_borderRowScan _ _ _).mp h1
    obtain ⟨c2, _, _, _, heq⟩ := (mem_borderRowScan _ _ _).mp h2
    have := (Prod.mk.injEq _ _ _ _).mp heq
    exact hne (by exact_mod_cast this.1)

theorem shrinkSelect_skip (room : Room) (bs : List (Int × Int))
    (rnd : Nat → Nat) (i : Nat) (h : ¬ i < min 2 bs.length) :
    shrinkSelect room bs rnd i = (room, bs) := by
  unfold shrinkSelect
  rw [dif_neg h]

theorem shrinkSelect_taken (room : Room) (bs : List (Int × Int))
    (rnd : Nat → Nat) (i : Nat) (h : i < min 2 bs.length) :
    ∃ hj : rnd i % bs.length < bs.length,
      shrinkSelect room bs rnd i =
        (eliminateAt
          (withDZ room (setAdd room.dangerZones (bs.get ⟨rnd i % bs.length, hj⟩)))
          (bs.get ⟨rnd i % bs.length, hj⟩),
         bs.eraseIdx (rnd i % bs.length)) := by
  have hpos : 0 < bs.length :=
    Nat.lt_of_le_of_lt (Nat.zero_le i) (Nat.lt_of_lt_of_le h (Nat.min_le_right 2 bs.length))
  refine ⟨Nat.mod_lt _ hpos, ?_⟩
  unfold shrinkSelect
  rw [dif_pos h]
  rfl

/-- Absence of a piece id from every matching player survives any further
`removePieceFromGame`. -/
theorem removePiece_preserves_absent (room : Room) (pid ownerId : String)
    (other : Piece)
    (h : ∀ pl ∈ room.players, pl.id = ownerId → ∀ p ∈ pl.pieces, p.id ≠ pid) :
    ∀ pl ∈ (removePieceFromGame room other).players, pl.id = ownerId →
      ∀ p ∈ pl.pieces, p.id ≠ pid := by
  intro pl hpl hid p hp
  simp only [removePieceFromGame, List.mem_map] at hpl
  obtain ⟨pl0, hpl0, rfl⟩ := hpl
  by_cases hq : pl0.id = other.playerId
  · rw [if_pos hq] at hid hp
    dsimp only at hid hp
    exact h pl0 hpl0 hid p (List.mem_of_mem_filter hp)
  · rw [if_neg hq] at hid hp
    exact h pl0 hpl0 hid p hp

theorem eliminateAt_preserves_absent (room : Room) (pid ownerId : String)
    (sq : Int × Int)
    (h : ∀ pl ∈ room.players, pl.id = ownerId → ∀ p ∈ pl.pieces, p.id ≠ pid) :
    ∀ pl ∈ (eliminateAt room sq).players, pl.id = ownerId →
      ∀ p ∈ pl.pieces, p.id ≠ pid := by
  unfold eliminateAt
  split
  · exact removePiece_preserves_absent room pid ownerId _ h
  · exact h

/-- After `removePieceFromGame room p`, no player whose id matches the
owner id still holds a piece with `p`'s id. -/
theorem removePiece_removes (room : Room) (p : Piece) :
    ∀ pl ∈ (removePieceFromGame room p).players, pl.id = p.playerId →
      ∀ p' ∈ pl.pieces, p'.id ≠ p.id := by
  intro pl hpl hid p' hp'
  simp only [removePieceFromGame, List.mem_map] at hpl
  obtain ⟨pl0, hpl0, rfl⟩ := hpl
  by_cases hq : pl0.id = p.playerId
  · rw [if_pos hq] at hid hp'
    dsimp only at hid hp'
    have := List.of_mem_filter hp'
    simpa using this
  · rw [if_neg hq] at hid hp'
    exact absurd hid hq

/-- After `eliminateAt room sq`, the occupant (if any) of `sq` is gone from
every matching player's list. -/
theorem eliminateAt_removes (room : Room) (sq : Int × Int) (p : Piece)
    (hocc : room.board sq.1 sq.2 = some p) :
    ∀ pl ∈ (eliminateAt room sq).players, pl.id = p.playerId →
      ∀ p' ∈ pl.pieces, p'.id ≠ p.id := by
  unfold eliminateAt
  rw [hocc]
  exact removePiece_removes room p

theorem borderSquares_nil (room : Room)
    (hall : ∀ q, isBorderCoord q → q ∈ room.dangerZones) : borderSquares room = [] := by
  rw [List.eq_nil_iff_forall_not_mem]
  intro q hq
  obtain ⟨hb, hdz⟩ := (mem_borderSquares room q).mp hq
  exact hdz (hall q hb)

theorem shrinkBoard_noop_of_nil (room : Room) (rnd : Nat → Nat)
    (h0 : borderSquares room = []) : shrinkBoard room rnd = room := by
  unfold shrinkBoard
  rw [h0]
  dsimp only
  rw [shrinkSelect_skip room [] rnd 0 (by simp)]
  dsimp only
  rw [shrinkSelect_skip room [] rnd 1 (by simp)]

/-- C5: every shrink event adds to `dangerZones` a duplicate-free selection
of at most two coordinates, each drawn from the original outer ring and not
already a danger zone; any piece occupying a selected coordinate is removed
from its owner's piece list; and once the whole outer ring is claimed, a
shrink event leaves `dangerZones` unchanged.  (The random draw itself is
modelled nondeterministically through the `rnd` stream.) -/
theorem c5_shrink_event (room : Room) (rnd : Nat → Nat) :
    (∃ sel : List (Int × Int),
        sel.Nodup ∧ sel.length ≤ 2
        ∧ (∀ q ∈ sel, isBorderCoord q ∧ q ∉ room.dangerZones)
        ∧ (shrinkBoard room rnd).dangerZones = room.dangerZones ++ sel
        ∧ (∀ q ∈ sel, ∀ p : Piece, room.board q.1 q.2 = some p →
            ∀ pl ∈ (shrinkBoard room rnd).players, pl.id = p.playerId →
              ∀ p' ∈ pl.pieces, p'.id ≠ p.id))
    ∧ ((∀ q, isBorderCoord q → q ∈ room.dangerZones) →
        (shrinkBoard room rnd).dangerZones = room.dangerZones) := by
  have hsb : shrinkBoard room rnd =
      (shrinkSelect (shrinkSelect room (borderSquares room) rnd 0).1
        (shrinkSelect room (borderSquares room) rnd 0).2 rnd 1).1 := rfl
  constructor
  · by_cases h1 : 0 < min 2 (borderSquares room).length
    · obtain ⟨hj1, he1⟩ := shrinkSelect_taken room (borderSquares room) rnd 0 h1
      rw [he1] at hsb
      dsimp only at hsb
      set j1 := rnd 0 % (borderSquares room).length with hj1def
      set sq1 := (borderSquares room).get ⟨j1, hj1⟩ with hsq1def
      set S1 := eliminateAt (withDZ room (setAdd room.dangerZones sq1)) sq1 with hS1def
      have hmem1 : sq1 ∈ borderSquares room := by
        rw [hsq1def]
        exact List.get_mem _ _ _
      have hprop1 : isBorderCoord sq1 ∧ sq1 ∉ room.dangerZones :=
        (mem_borderSquares room sq1).mp hmem1
      have hS1dz : S1.dangerZones = room.dangerZones ++ [sq1] := by
        rw [hS1def, eliminateAt_dangerZones]
        show setAdd room.dangerZones sq1 = _
        unfold setAdd
        rw [if_neg hprop1.2]
      have hS1players : ∀ p : Piece, room.board sq1.1 sq1.2 = some p →
          ∀ pl ∈ S1.players, pl.id = p.playerId → ∀ p' ∈ pl.pieces, p'.id ≠ p.id := by
        intro p hocc
        rw [hS1def]
        exact eliminateAt_removes _ sq1 p hocc
      by_cases h2 : 1 < min 2 ((borderSquares room).eraseIdx j1).length
      · obtain ⟨hj2, he2⟩ := shrinkSelect_taken S1 ((borderSquares room).eraseIdx j1) rnd 1 h2
        rw [he2] at hsb
        dsimp only at hsb
        set j2 := rnd 1 % ((borderSquares room).eraseIdx j1).length with hj2def
        set sq2 := ((borderSquares room).eraseIdx j1).get ⟨j2, hj2⟩ with hsq2def
        have hmem2' : sq2 ∈ (borderSquares room).eraseIdx j1 := by
          rw [hsq2def]
          exact List.get_mem _ _ _
        have hmem2 : sq2 ∈ borderSquares room := List.mem_of_mem_eraseIdx hmem2'
        have hprop2 : isBorderCoord sq2 ∧ sq2 ∉ room.dangerZones :=
          (mem_borderSquares room sq2).mp hmem2
        have hne : sq2 ≠ sq1 := by
          intro heq
          have h3 := hmem2'
          rw [List.mem_eraseIdx_iff_getElem] at h3
          obtain ⟨i, hi, hine, hieq⟩ := h3
          apply hine
          have hget : (borderSquares room).get ⟨i, hi⟩ = (borderSquares room).get ⟨j1, hj1⟩ := by
            rw [← hsq1def, ← heq, ← hieq]
            simp [List.get_eq_getElem]
          exact (@List.Nodup.getElem_inj_iff _ (borderSquares room)
            (borderSquares_nodup room) i hi j1 hj1).mp
            (by simpa [List.get_eq_getElem] using hget)
        have hnm : sq2 ∉ room.dangerZones ++ [sq1] := by
          rw [List.mem_append]
          rintro (h | h)
          · exact hprop2.2 h
          · exact hne (List.mem_singleton.mp h)
        have hS2dz : (shrinkBoard room rnd).dangerZones
            = room.dangerZones ++ [sq1, sq2] := by
          rw [hsb, eliminateAt_dangerZones]
          show setAdd S1.dangerZones sq2 = _
          rw [hS1dz]
          unfold setAdd
          rw [if_neg hnm, List.append_assoc]
          rfl
        have habs1 : ∀ p : Piece, room.board sq1.1 sq1.2 = some p →
            ∀ pl ∈ (shrinkBoard room rnd).players, pl.id = p.playerId →
              ∀ p' ∈ pl.pieces, p'.id ≠ p.id := by
          intro p hocc
          rw [hsb]
          exact eliminateAt_preserves_absent _ p.id p.playerId sq2 (hS1players p hocc)
        have habs2 : ∀ p : Piece, room.board sq2.1 sq2.2 = some p →
            ∀ pl ∈ (shrinkBoard room rnd).players, pl.id = p.playerId →
              ∀ p' ∈ pl.pieces, p'.id ≠ p.id := by
          intro p hocc
          rw [hsb]
          refine eliminateAt_removes _ sq2 p ?_
          show S1.board sq2.1 sq2.2 = some p
          rw [hS1def, eliminateAt_board]
          exact hocc
        refine ⟨[sq1, sq2], ?_, by simp, ?_, hS2dz, ?_⟩
        · simp only [List.nodup_cons, List.mem_singleton, List.not_mem_nil,
            not_false_iff, List.nodup_nil, and_true]
          exact fun h => hne h.symm
        · intro q hq
          rcases List.mem_cons.mp hq with rfl | hq
          · exact hprop1
          · rcases List.mem_singleton.mp hq with rfl
            exact hprop2
        · intro q hq p hocc
          rcases List.mem_cons.mp hq with rfl | hq
          · exact habs1 p hocc
          · rcases List.mem_singleton.mp hq with rfl
            exact habs2 p hocc
      · rw [shrinkSelect_skip _ _ _ _ h2] at hsb
        dsimp only at hsb
        refine ⟨[sq1], by simp, by simp, ?_, ?_, ?_⟩
        · intro q hq
          rcases List.mem_singleton.mp hq with rfl
          exact hprop1
        · rw [hsb]
          exact hS1dz
        · intro q hq p hocc
          rcases List.mem_singleton.mp hq with rfl
          rw [hsb]
          exact hS1players p hocc
    · rw [shrinkSelect_skip _ _ _ _ h1] at hsb
      dsimp only at hsb
      have h2 : ¬ 1 < min 2 (borderSquares room).length := by omega
      rw [shrinkSelect_skip _ _ _ _ h2] at hsb
      dsimp only at hsb
      refine ⟨[], by simp, by simp, by simp, ?_, by simp⟩
      rw [hsb]
      simp
  · intro hall
    rw [shrinkBoard_noop_of_nil room rnd (borderSquares_nil room hall)]

/-- Witness for C5: with the whole outer ring already claimed, a shrink
event leaves the danger-zone set unchanged. -/
theorem c5_witness :
    (shrinkBoard roomFullDZ rnd0).dangerZones = roomFullDZ.dangerZones :=
  (c5_shrink_event roomFullDZ rnd0).2 (fun q hq =>
    (mem_borderSquares roomW q).mpr ⟨hq, by simp [roomW]⟩)

theorem movedPieceOf_row (p : Piece) (tr tc n : Int) :
    (movedPieceOf p tr tc n).row = tr := by
  unfold movedPieceOf; split <;> rfl

theorem movedPieceOf_col (p : Piece) (tr tc n : Int) :
    (movedPieceOf p tr tc n).col = tc := by
  unfold movedPieceOf; split <;> rfl

theorem movedPieceOf_id (p : Piece) (tr tc n : Int) :
    (movedPieceOf p tr tc n).id = p.id := by
  unfold movedPieceOf; split <;> rfl

theorem movedPieceOf_playerId (p : Piece) (tr tc n : Int) :
    (movedPieceOf p tr tc n).playerId = p.playerId := by
  unfold movedPieceOf; split <;> rfl

theorem players_eq_of_id (room : Room) (hNodup : PlayerIdsNodup room)
    {pl pl' : Player} (h1 : pl ∈ room.players) (h2 : pl' ∈ room.players)
    (hid : pl.id = pl'.id) : pl = pl' :=
  List.inj_on_of_nodup_map hNodup h1 h2 hid

/-- Core duality argument shared by the capture and no-capture branches of
`executeMove`: clearing the origin, removing (at most) the destination
occupant from the player table, and re-placing the updated mover preserves
duality. -/
theorem duality_after_move (room : Room) (piece piece' : Piece) (pl0 : Player)
    (players2 : List Player) (cap : Option Piece) (toRow toCol : Int)
    (hDC : DualityCoords room) (hBR : BoardReachable room) (hLB : ListOnBoard room)
    (hUniq : UniquePieceIds room) (hOwn : OwnIds room)
    (hpl0 : pl0 ∈ room.players) (hpiece : piece ∈ pl0.pieces)
    (hrow : piece'.row = toRow) (hcol : piece'.col = toCol)
    (hid : piece'.id = piece.id) (hpid : piece'.playerId = piece.playerId)
    (hcapn : cap = none →
      room.board toRow toCol = none ∨ (toRow = piece.row ∧ toCol = piece.col))
    (hcaps : ∀ cp, cap = some cp →
      room.board toRow toCol = some cp ∧ ¬(toRow = piece.row ∧ toCol = piece.col))
    (hR1 : ∀ pl ∈ room.players, ∃ pl2 ∈ players2, pl2.id = pl.id
      ∧ ∀ p ∈ pl.pieces, (∀ cp, cap = some cp → p.id ≠ cp.id) → p ∈ pl2.pieces)
    (hR2 : ∀ pl2 ∈ players2, ∃ pl ∈ room.players, pl2.id = pl.id
      ∧ ∀ p ∈ pl2.pieces, p ∈ pl.pieces)
    (hR3 : ∀ cp, cap = some cp → ∀ pl2 ∈ players2, ∀ p ∈ pl2.pieces, p.id ≠ cp.id) :
    Duality (withPB room
      (players2.map (fun pl => { pl with pieces := pl.pieces.map (fun p =>
        if p.id = piece.id then piece' else p) }))
      (setCell (setCell room.board piece.row piece.col none) toRow toCol
        (some piece'))) := by
  have hpb : room.board piece.row piece.col = some piece := hLB pl0 hpl0 piece hpiece
  have hpieceavoid : ∀ cp, cap = some cp → piece.id ≠ cp.id := by
    intro cp hc heq
    obtain ⟨hbdest, hne⟩ := hcaps cp hc
    obtain ⟨plc, hplc, hplcid, hcpmem⟩ := hBR _ _ _ hbdest
    obtain ⟨hpleq, hpeq⟩ := hUniq pl0 hpl0 plc hplc piece hpiece cp hcpmem heq
    obtain ⟨hr, hc2⟩ := hDC _ _ _ hbdest
    rw [← hpeq] at hr hc2
    exact hne ⟨hr.symm, hc2.symm⟩
  refine ⟨?_, ?_, ?_⟩
  · -- DualityCoords
    intro r c p h
    simp only [withPB] at h
    by_cases hdest : r = toRow ∧ c = toCol
    · obtain ⟨rfl, rfl⟩ := hdest
      rw [setCell_same] at h
      injection h with h
      exact ⟨by rw [← h, hrow], by rw [← h, hcol]⟩
    · rw [setCell_other _ _ _ _ _ _ hdest] at h
      by_cases horig : r = piece.row ∧ c = piece.col
      · rw [show r = piece.row from horig.1, show c = piece.col from horig.2,
          setCell_same] at h
        cases h
      · rw [setCell_other _ _ _ _ _ _ horig] at h
        exact hDC r c p h
  · -- BoardReachable
    intro r c p h
    simp only [withPB] at h
    by_cases hdest : r = toRow ∧ c = toCol
    · obtain ⟨rfl, rfl⟩ := hdest
      rw [setCell_same] at h
      injection h with h
      subst h
      obtain ⟨pl2, hpl2, hpl2id, hkeep⟩ := hR1 pl0 hpl0
      have hpiece2 : piece ∈ pl2.pieces := hkeep piece hpiece hpieceavoid
      refine ⟨_, List.mem_map_of_mem _ hpl2, ?_, ?_⟩
      · show pl2.id = piece'.playerId
        rw [hpid, hOwn pl0 hpl0 piece hpiece]
        exact hpl2id
      · show piece' ∈ pl2.pieces.map _
        refine List.mem_map.mpr ⟨piece, hpiece2, ?_⟩
        rw [if_pos rfl]
    · rw [setCell_other _ _ _ _ _ _ hdest] at h
      by_cases horig : r = piece.row ∧ c = piece.col
      · rw [show r = piece.row from horig.1, show c = piece.col from horig.2,
          setCell_same] at h
        cases h
      · rw [setCell_other _ _ _ _ _ _ horig] at h
        obtain ⟨plq, hplq, hplqid, hpmem⟩ := hBR r c p h
        have hpavoid : ∀ cp, cap = some cp → p.id ≠ cp.id := by
          intro cp hc heq
          obtain ⟨hbdest, hne⟩ := hcaps cp hc
          obtain ⟨plc, hplc, hplcid, hcpmem⟩ := hBR _ _ _ hbdest
          obtain ⟨hpleq, hpeq⟩ := hUniq plq hplq plc hplc p hpmem cp hcpmem heq
          obtain ⟨h1, h2⟩ := hDC _ _ _ h
          obtain ⟨h3, h4⟩ := hDC _ _ _ hbdest
          rw [hpeq] at h1 h2
          exact hdest ⟨by rw [← h1, h3], by rw [← h2, h4]⟩
        obtain ⟨pl2, hpl2, hpl2id, hkeep⟩ := hR1 plq hplq
        have hp2 : p ∈ pl2.pieces := hkeep p hpmem hpavoid
        have hpne : p.id ≠ piece.id := by
          intro heq
          obtain ⟨hpleq, hpeq⟩ := hUniq plq hplq pl0 hpl0 p hpmem piece hpiece heq
          obtain ⟨h1, h2⟩ := hDC _ _ _ h
          rw [hpeq] at h1 h2
          exact horig ⟨h1.symm, h2.symm⟩
        refine ⟨_, List.mem_map_of_mem _ hpl2, ?_, ?_⟩
        · show pl2.id = p.playerId
          rw [hpl2id, hplqid]
        · show p ∈ pl2.pieces.map _
          refine List.mem_map.mpr ⟨p, hp2, ?_⟩
          rw [if_neg hpne]
  · -- ListOnBoard
    intro pl3 hpl3 p hp
    simp only [withPB] at hpl3
    obtain ⟨pl2, hpl2, rfl⟩ := List.mem_map.mp hpl3
    obtain ⟨p2, hp2, rfl⟩ := List.mem_map.mp hp
    obtain ⟨plq, hplq, hplqid, hsub⟩ := hR2 pl2 hpl2
    have hp2q : p2 ∈ plq.pieces := hsub p2 hp2
    by_cases hpe : p2.id = piece.id
    · rw [if_pos hpe]
      show setCell _ toRow toCol (some piece') piece'.row piece'.col = some piece'
      rw [hrow, hcol]
      exact setCell_same _ _ _ _
    · rw [if_neg hpe]
      have hbp2 : room.board p2.row p2.col = some p2 := hLB plq hplq p2 hp2q
      show setCell (setCell room.board piece.row piece.col none) toRow toCol
        (some piece') p2.row p2.col = some p2
      by_cases hdest : p2.row = toRow ∧ p2.col = toCol
      · exfalso
        have hbdest2 : room.board toRow toCol = some p2 := by
          rw [← hdest.1, ← hdest.2]
          exact hbp2
        cases hc : cap with
        | none =>
          rcases hcapn hc with hn | ho
          · rw [hbdest2] at hn
            cases hn
          · have hx : room.board piece.row piece.col = some p2 := by
              rw [← ho.1, ← ho.2]
              exact hbdest2
            rw [hpb] at hx
            injection hx with hx
            exact hpe (by rw [← hx])
        | some cp =>
          obtain ⟨hbdest, hne⟩ := hcaps cp hc
          rw [hbdest] at hbdest2
          injection hbdest2 with hx
          exact hR3 cp hc pl2 hpl2 p2 hp2 (by rw [← hx])
      · rw [setCell_other _ _ _ _ _ _ hdest]
        by_cases horig : p2.row = piece.row ∧ p2.col = piece.col
        · exfalso
          have hx : room.board piece.row piece.col = some p2 := by
            rw [← horig.1, ← horig.2]
            exact hbp2
          rw [hpb] at hx
          injection hx with hx
          exact hpe (by rw [← hx])
        · rw [setCell_other _ _ _ _ _ _ horig]
          exact hbp2

theorem executeMove_duality (room : Room) (pl0 : Player) (piece : Piece)
    (toRow toCol now : Int) (hWF : WellFormed room) (hD : Duality room)
    (hpl0 : pl0 ∈ room.players) (hpiece : piece ∈ pl0.pieces) :
    Duality (executeMove room piece toRow toCol now).1 := by
  obtain ⟨hOwn, hUniq, hNodup⟩ := hWF
  obtain ⟨hDC, hBR, hLB⟩ := hD
  unfold executeMove
  dsimp only
  cases hcap : setCell room.board piece.row piece.col none toRow toCol with
  | none =>
    refine duality_after_move room piece (movedPieceOf piece toRow toCol now) pl0
      room.players none toRow toCol hDC hBR hLB hUniq hOwn hpl0 hpiece
      (movedPieceOf_row _ _ _ _) (movedPieceOf_col _ _ _ _)
      (movedPieceOf_id _ _ _ _) (movedPieceOf_playerId _ _ _ _)
      ?_ ?_ ?_ ?_ ?_
    · intro _
      by_cases horig : toRow = piece.row ∧ toCol = piece.col
      · exact Or.inr horig
      · left
        rw [← setCell_other room.board piece.row piece.col none toRow toCol horig]
        exact hcap
    · intro cp hc
      cases hc
    · intro pl hpl
      exact ⟨pl, hpl, rfl, fun p hp _ => hp⟩
    · intro pl2 hpl2
      exact ⟨pl2, hpl2, rfl, fun p hp => hp⟩
    · intro cp hc
      cases hc
  | some cp =>
    have hne : ¬(toRow = piece.row ∧ toCol = piece.col) := by
      intro hh
      rw [hh.1, hh.2, setCell_same] at hcap
      cases hcap
    have hbdest : room.board toRow toCol = some cp := by
      rw [← setCell_other room.board piece.row piece.col none toRow toCol hne]
      exact hcap
    obtain ⟨plc, hplc, hplcid, hcpmem⟩ := hBR toRow toCol cp hbdest
    refine duality_after_move room piece (movedPieceOf piece toRow toCol now) pl0
      ((removePieceFromGame { room with
          board := setCell room.board piece.row piece.col none } cp).players)
      (some cp) toRow toCol hDC hBR hLB hUniq hOwn hpl0 hpiece
      (movedPieceOf_row _ _ _ _) (movedPieceOf_col _ _ _ _)
      (movedPieceOf_id _ _ _ _) (movedPieceOf_playerId _ _ _ _)
      ?_ ?_ ?_ ?_ ?_
    · intro hc
      cases hc
    · intro cp' hc
      injection hc with hc
      subst hc
      exact ⟨hbdest, hne⟩
    · intro pl hpl
      refine ⟨_, List.mem_map_of_mem _ hpl, ?_, ?_⟩
      · by_cases hc : pl.id = cp.playerId
        · rw [if_pos hc]
        · rw [if_neg hc]
      · intro p hp havoid
        have hpne : p.id ≠ cp.id := havoid cp rfl
        by_cases hc : pl.id = cp.playerId
        · rw [if_pos hc]
          exact List.mem_filter.mpr ⟨hp, by simpa using hpne⟩
        · rw [if_neg hc]
          exact hp
    · intro pl2 hpl2
      simp only [removePieceFromGame, List.mem_map] at hpl2
      obtain ⟨pl, hpl, rfl⟩ := hpl2
      refine ⟨pl, hpl, ?_, ?_⟩
      · by_cases hc : pl.id = cp.playerId
        · rw [if_pos hc]
        · rw [if_neg hc]
      · intro p hp
        by_cases hc : pl.id = cp.playerId
        · rw [if_pos hc] at hp
          exact List.mem_of_mem_filter hp
        · rw [if_neg hc] at hp
          exact hp
    · intro cp' hc pl2 hpl2 p hp
      have hcc : cp' = cp := by
        injection hc with h
        exact h.symm
      subst hcc
      simp only [removePieceFromGame, List.mem_map] at hpl2
      obtain ⟨pl, hpl, rfl⟩ := hpl2
      by_cases hc2 : pl.id = cp'.playerId
      · rw [if_pos hc2] at hp
        have := List.of_mem_filter hp
        simpa using this
      · rw [if_neg hc2] at hp
        intro heq
        obtain ⟨hpleq, hpeq⟩ := hUniq pl hpl plc hplc p hp cp' hcpmem heq
        rw [hpleq] at hc2
        exact hc2 hplcid

theorem clearCells_cases (ps : List Piece) (b : Int → Int → Option Piece)
    (r c : Int) : clearCells ps b r c = b r c ∨ clearCells ps b r c = none := by
  induction ps generalizing b with
  | nil => exact Or.inl rfl
  | cons q t ih =>
    show clearCells t (setCell b q.row q.col none) r c = b r c
      ∨ clearCells t (setCell b q.row q.col none) r c = none
    rcases ih (setCell b q.row q.col none) with h | h
    · rw [h]
      by_cases hc : r = q.row ∧ c = q.col
      · right
        rw [show r = q.row from hc.1, show c = q.col from hc.2, setCell_same]
      · left
        rw [setCell_other _ _ _ _ _ _ hc]
    · exact Or.inr h

theorem clearCells_none_of_none (ps : List Piece) (b : Int → Int → Option Piece)
    (r c : Int) (h : b r c = none) : clearCells ps b r c = none := by
  induction ps generalizing b with
  | nil => exact h
  | cons q t ih =>
    show clearCells t (setCell b q.row q.col none) r c = none
    refine ih _ ?_
    by_cases hc : r = q.row ∧ c = q.col
    · rw [show r = q.row from hc.1, show c = q.col from hc.2, setCell_same]
    · rw [setCell_other _ _ _ _ _ _ hc]
      exact h

theorem clearCells_mem (ps : List Piece) (b : Int → Int → Option Piece)
    (q : Piece) (hq : q ∈ ps) : clearCells ps b q.row q.col = none := by
  induction ps generalizing b with
  | nil => cases hq
  | cons a t ih =>
    show clearCells t (setCell b a.row a.col none) q.row q.col = none
    rcases List.mem_cons.mp hq with rfl | hq2
    · refine clearCells_none_of_none _ _ _ _ ?_
      rw [setCell_same]
    · exact ih _ hq2

theorem clearCells_none_cases (ps : List Piece) (b : Int → Int → Option Piece)
    (r c : Int) (h : clearCells ps b r c = none) :
    b r c = none ∨ ∃ q ∈ ps, q.row = r ∧ q.col = c := by
  induction ps generalizing b with
  | nil => exact Or.inl h
  | cons q t ih =>
    rw [show clearCells (q :: t) b = clearCells t (setCell b q.row q.col none) from rfl] at h
    rcases ih (setCell b q.row q.col none) h with h1 | h1
    · by_cases hc : r = q.row ∧ c = q.col
      · exact Or.inr ⟨q, List.mem_cons_self _ _, hc.1.symm, hc.2.symm⟩
      · rw [setCell_other _ _ _ _ _ _ hc] at h1
        exact Or.inl h1
    · obtain ⟨q', hq', hco⟩ := h1
      exact Or.inr ⟨q', List.mem_cons_of_mem _ hq', hco⟩

theorem removePlayer_duality (room : Room) (pid : String)
    (hWF : WellFormed room) (hD : Duality room) :
    Duality (removePlayer room pid) := by
  obtain ⟨hOwn, hUniq, hNodup⟩ := hWF
  obtain ⟨hDC, hBR, hLB⟩ := hD
  unfold removePlayer
  cases hget : playersGet room.players pid with
  | none => exact ⟨hDC, hBR, hLB⟩
  | some pl0 =>
    dsimp only
    have hpl0mem : pl0 ∈ room.players := List.mem_of_find?_eq_some hget
    have hpl0id : pl0.id = pid := by
      have := List.find?_some hget
      simpa using this
    have hDCc : ∀ r c p, clearCells pl0.pieces room.board r c = some p →
        p.row = r ∧ p.col = c := by
      intro r c p h
      rcases clearCells_cases pl0.pieces room.board r c with hcc | hcc
      · rw [hcc] at h
        exact hDC r c p h
      · rw [hcc] at h
        cases h
    have hBRc : ∀ r c p, clearCells pl0.pieces room.board r c = some p →
        ∃ pl ∈ room.players.filter (fun pl => pl.id ≠ pid),
          pl.id = p.playerId ∧ p ∈ pl.pieces := by
      intro r c p h
      have hb : room.board r c = some p := by
        rcases clearCells_cases pl0.pieces room.board r c with hcc | hcc
        · rw [← hcc]
          exact h
        · rw [hcc] at h
          cases h
      obtain ⟨plq, hplq, hplqid, hpmem⟩ := hBR r c p hb
      have hplqne : plq.id ≠ pid := by
        intro heq
        have hpleq : plq = pl0 :=
          players_eq_of_id room hNodup hplq hpl0mem (by rw [heq, hpl0id])
        have hpmem0 : p ∈ pl0.pieces := hpleq ▸ hpmem
        have hn := clearCells_mem pl0.pieces room.board p hpmem0
        obtain ⟨hr, hc⟩ := hDC r c p hb
        rw [hr, hc] at hn
        rw [hn] at h
        cases h
      exact ⟨plq, List.mem_filter.mpr ⟨hplq, by simpa using hplqne⟩, hplqid, hpmem⟩
    have hLBc : ∀ pl ∈ room.players.filter (fun pl => pl.id ≠ pid),
        ∀ p ∈ pl.pieces, clearCells pl0.pieces room.board p.row p.col = some p := by
      intro pl hpl p hp
      have hplmem : pl ∈ room.players := List.mem_of_mem_filter hpl
      have hplne : pl.id ≠ pid := by
        have := List.of_mem_filter hpl
        simpa using this
      have hb : room.board p.row p.col = some p := hLB pl hplmem p hp
      rcases clearCells_cases pl0.pieces room.board p.row p.col with hcc | hcc
      · rw [hcc]
        exact hb
      · exfalso
        rcases clearCells_none_cases pl0.pieces room.board p.row p.col hcc with hn | hn
        · rw [hb] at hn
          cases hn
        · obtain ⟨q, hq, hqr, hqc⟩ := hn
          have hbq : room.board q.row q.col = some q := hLB pl0 hpl0mem q hq
          rw [hqr, hqc, hb] at hbq
          injection hbq with hbq
          obtain ⟨hpleq, hpeq⟩ :=
            hUniq pl0 hpl0mem pl hplmem q hq p hp (by rw [hbq])
          rw [hpleq] at hpl0id
          exact hplne hpl0id
    split
    · rename_i hcond
      split
      · rename_i hlist heq
        exfalso
        rw [heq] at hcond
        exact absurd hcond.2 (by simp)
      · rename_i hlist first rest heq
        refine ⟨?_, ?_, ?_⟩
        · intro r c p h
          exact hDCc r c p h
        · intro r c p h
          obtain ⟨plq, hplq, hplqid, hpmem⟩ := hBRc r c p h
          rw [heq] at hplq
          rcases List.mem_cons.mp hplq with rfl | hplq
          · exact ⟨{ plq with isAdmin := true }, List.mem_cons_self _ _, hplqid, hpmem⟩
          · exact ⟨plq, List.mem_cons_of_mem _ hplq, hplqid, hpmem⟩
        · intro plf hplf p hp
          rcases List.mem_cons.mp hplf with rfl | hplf
          · refine hLBc first ?_ p hp
            rw [heq]
            exact List.mem_cons_self _ _
          · refine hLBc plf ?_ p hp
            rw [heq]
            exact List.mem_cons_of_mem _ hplf
    · refine ⟨?_, ?_, ?_⟩
      · intro r c p h
        exact hDCc r c p h
      · intro r c p h
        exact hBRc r c p h
      · intro plf hplf p hp
        exact hLBc plf hplf p hp

theorem removePiece_listOnBoard (room : Room) (cp : Piece)
    (h : ListOnBoard room) : ListOnBoard (removePieceFromGame room cp) := by
  intro pl2 hpl2 p hp
  simp only [removePieceFromGame, List.mem_map] at hpl2
  obtain ⟨pl, hpl, rfl⟩ := hpl2
  by_cases hc : pl.id = cp.playerId
  · rw [if_pos hc] at hp
    exact h pl hpl p (List.mem_of_mem_filter hp)
  · rw [if_neg hc] at hp
    exact h pl hpl p hp

theorem eliminateAt_listOnBoard (room : Room) (sq : Int × Int)
    (h : ListOnBoard room) : ListOnBoard (eliminateAt room sq) := by
  unfold eliminateAt
  split
  · exact removePiece_listOnBoard room _ h
  · exact h

theorem shrinkSelect_listOnBoard (room : Room) (bs : List (Int × Int))
    (rnd : Nat → Nat) (i : Nat) (h : ListOnBoard room) :
    ListOnBoard (shrinkSelect room bs rnd i).1 := by
  unfold shrinkSelect
  split
  · exact eliminateAt_listOnBoard _ _ h
  · exact h

theorem shrinkBoard_listOnBoard (room : Room) (rnd : Nat → Nat)
    (h : ListOnBoard room) : ListOnBoard (shrinkBoard room rnd) := by
  unfold shrinkBoard
  exact shrinkSelect_listOnBoard _ _ _ _ (shrinkSelect_listOnBoard _ _ _ _ h)

/-- C1 (amended): from a well-formed state satisfying board-piece duality,
duality is fully preserved by `executeMove` (including its capture path) and
by `removePlayer`; a shrink elimination preserves the coordinate-match and
list-to-board directions, but not board-to-list reachability — the
eliminated piece's board cell keeps a stale reference (see the
counterexample). -/
theorem c1_duality_preservation (room : Room)
    (hWF : WellFormed room) (hD : Duality room) :
    (∀ pl ∈ room.players, ∀ piece ∈ pl.pieces, ∀ toRow toCol now : Int,
        Duality (executeMove room piece toRow toCol now).1)
    ∧ (∀ pid, Duality (removePlayer room pid))
    ∧ (∀ rnd, DualityCoords (shrinkBoard room rnd)
        ∧ ListOnBoard (shrinkBoard room rnd)) := by
  refine ⟨?_, ?_, ?_⟩
  · intro pl hpl piece hpiece toRow toCol now
    exact executeMove_duality room pl piece toRow toCol now hWF hD hpl hpiece
  · intro pid
    exact removePlayer_duality room pid hWF hD
  · intro rnd
    constructor
    · intro r c p h
      rw [shrinkBoard_board] at h
      exact hD.1 r c p h
    · exact shrinkBoard_listOnBoard room rnd hD.2.2

theorem boardW_cases (r c : Int) (p : Piece) (h : boardW r c = some p) :
    (r = 3 ∧ c = 3 ∧ p = pKingA) ∨ (r = 4 ∧ c = 3 ∧ p = pPawnA)
    ∨ (r = 50 ∧ c = 50 ∧ p = pKingB) := by
  unfold boardW at h
  split_ifs at h with h1 h2 h3
  · injection h with h
    exact Or.inl ⟨h1.1, h1.2, h.symm⟩
  · injection h with h
    exact Or.inr (Or.inl ⟨h2.1, h2.2, h.symm⟩)
  · injection h with h
    exact Or.inr (Or.inr ⟨h3.1, h3.2, h.symm⟩)

theorem roomW_wf : WellFormed roomW := by
  refine ⟨?_, ?_, ?_⟩
  · unfold OwnIds
    decide
  · unfold UniquePieceIds
    decide
  · unfold PlayerIdsNodup
    decide

theorem roomW_duality : Duality roomW := by
  refine ⟨?_, ?_, ?_⟩
  · intro r c p h
    rcases boardW_cases r c p h with ⟨rfl, rfl, rfl⟩ | ⟨rfl, rfl, rfl⟩ | ⟨rfl, rfl, rfl⟩
      <;> exact ⟨rfl, rfl⟩
  · intro r c p h
    rcases boardW_cases r c p h with ⟨rfl, rfl, rfl⟩ | ⟨rfl, rfl, rfl⟩ | ⟨rfl, rfl, rfl⟩
    · exact ⟨playerA, by decide, by decide, by decide⟩
    · exact ⟨playerA, by decide, by decide, by decide⟩
    · exact ⟨playerB, by decide, by decide, by decide⟩
  · unfold ListOnBoard
    decide

/-- Witness for C1: removing player "A" from `roomW` preserves duality. -/
theorem c1_witness : Duality (removePlayer roomW "A") :=
  (c1_duality_preservation roomW roomW_wf roomW_duality).2.1 "A"

theorem boardCex_cases (r c : Int) (p : Piece) (h : boardCex r c = some p) :
    (r = 0 ∧ c = 0 ∧ p = pEdgeA) ∨ (r = 50 ∧ c = 50 ∧ p = pKingB) := by
  unfold boardCex at h
  split_ifs at h with h1 h2
  · injection h with h
    exact Or.inl ⟨h1.1, h1.2, h.symm⟩
  · injection h with h
    exact Or.inr ⟨h2.1, h2.2, h.symm⟩

theorem roomCex_wf : WellFormed roomCex := by
  refine ⟨?_, ?_, ?_⟩
  · unfold OwnIds
    decide
  · unfold UniquePieceIds
    decide
  · unfold PlayerIdsNodup
    decide

theorem roomCex_duality : Duality roomCex := by
  refine ⟨?_, ?_, ?_⟩
  · intro r c p h
    rcases boardCex_cases r c p h with ⟨rfl, rfl, rfl⟩ | ⟨rfl, rfl, rfl⟩
      <;> exact ⟨rfl, rfl⟩
  · intro r c p h
    rcases boardCex_cases r c p h with ⟨rfl, rfl, rfl⟩ | ⟨rfl, rfl, rfl⟩
    · exact ⟨playerACex, by decide, by decide, by decide⟩
    · exact ⟨playerB, by decide, by decide, by decide⟩
  · unfold ListOnBoard
    decide

/-- `shrinkSelect` on a nonempty candidate list when the random draw is 0:
the head is selected. -/
theorem shrinkSelect_zero_cons (room : Room) (a : Int × Int)
    (l : List (Int × Int)) (rnd : Nat → Nat) (i : Nat)
    (h : i < min 2 (a :: l).length) (hr : rnd i = 0) :
    shrinkSelect room (a :: l) rnd i =
      (eliminateAt (withDZ room (setAdd room.dangerZones a)) a, l) := by
  obtain ⟨hj, he⟩ := shrinkSelect_taken room (a :: l) rnd i h
  rw [he]
  have hj0 : rnd i % (a :: l).length = 0 := by
    rw [hr]
    exact Nat.zero_mod _
  have hget : (a :: l).get ⟨rnd i % (a :: l).length, hj⟩ = a := by
    have hgen : ∀ (j : Nat) (hlt : j < (a :: l).length), j = 0 →
        (a :: l).get ⟨j, hlt⟩ = a := by
      intro j hlt hj'
      subst hj'
      rfl
    exact hgen _ hj hj0
  rw [hget, hj0]
  rfl

/-- The concrete shrink event on `roomCex` with the constant-zero stream:
the cells (0,0) and (0,1) are selected, and the pawn at (0,0) is removed
from player "A"'s list (leaving "A" dead) — while the board itself is never
touched. -/
theorem shrink_roomCex_players :
    (shrinkBoard roomCex rnd0).players
      = [{ playerACex with pieces := [], alive := false }, playerB] := by
  obtain ⟨t, ht⟩ : ∃ t, borderSquares roomCex
      = ((0 : Int), (0 : Int)) :: ((0 : Int), (1 : Int))
        :: ((0 : Int), (2 : Int)) :: t := ⟨_, rfl⟩
  have hsb : shrinkBoard roomCex rnd0 =
      (shrinkSelect (shrinkSelect roomCex (borderSquares roomCex) rnd0 0).1
        (shrinkSelect roomCex (borderSquares roomCex) rnd0 0).2 rnd0 1).1 := rfl
  rw [ht] at hsb
  rw [shrinkSelect_zero_cons _ _ _ _ _ (by simp only [List.length_cons]; omega) rfl] at hsb
  dsimp only at hsb
  rw [shrinkSelect_zero_cons _ _ _ _ _ (by simp only [List.length_cons]; omega) rfl] at hsb
  dsimp only at hsb
  rw [hsb]
  rfl

/-- C1 counterexample: from the well-formed, duality-satisfying room
`roomCex`, the shrink event that eliminates the pawn at (0,0) leaves the
board cell (0,0) still referencing that pawn while no player's piece list
holds it any more — duality (board-to-list reachability) is broken
immediately after a shrink elimination. -/
theorem c1_counterexample :
    WellFormed roomCex ∧ Duality roomCex
    ∧ ¬ BoardReachable (shrinkBoard roomCex rnd0) := by
  refine ⟨roomCex_wf, roomCex_duality, ?_⟩
  intro hreach
  have hboard : (shrinkBoard roomCex rnd0).board 0 0 = some pEdgeA := by
    rw [shrinkBoard_board]
    decide
  obtain ⟨pl, hpl, hplid, hp⟩ := hreach 0 0 pEdgeA hboard
  rw [shrink_roomCex_players] at hpl
  rcases List.mem_cons.mp hpl with rfl | hpl
  · exact absurd hp (by decide)
  · rcases List.mem_singleton.mp hpl with rfl
    exact absurd hp (by decide)

/-! ## Claim C2: win detection -/

/-- C2 (amended): win detection runs after every successful move execution
— hence after every capture.  If the post-move set of alive players with
nonempty piece lists has size at most 1, the handler sets the phase to
`ended`, stops the shrink scheduler, and broadcasts the match end carrying
the first such player's name (or no winner if the set is empty); otherwise
the room is left as the move produced it.  But shrink eliminations and
player removals do NOT invoke win detection: `shrinkBoard` and
`removePlayer` leave `phase` and the shrink scheduler untouched. -/
theorem c2_win_detection (room : Room) :
    (∀ (senderId pieceId : String) (fromRow fromCol toRow toCol now : Int)
        (player : Player) (piece : Piece),
      room.phase = Phase.playing →
      playersGet room.players senderId = some player →
      player.alive = true →
      findPiece room pieceId = some piece →
      piece.playerId = senderId →
      isValidMove room piece toRow toCol = true →
      (((alivePlayers (executeMove room piece toRow toCol now).1).length ≤ 1 →
          (movePieceHandler room senderId pieceId fromRow fromCol toRow toCol now).1.phase
              = Phase.ended
          ∧ (movePieceHandler room senderId pieceId fromRow fromCol toRow toCol now).1.shrinkInterval
              = false
          ∧ Emit.toRoom (Msg.gameEnded
                ((alivePlayers (executeMove room piece toRow toCol now).1).head?.map Player.name))
              ∈ (movePieceHandler room senderId pieceId fromRow fromCol toRow toCol now).2.1)
        ∧ (1 < (alivePlayers (executeMove room piece toRow toCol now).1).length →
          (movePieceHandler room senderId pieceId fromRow fromCol toRow toCol now).1
            = (executeMove room piece toRow toCol now).1)))
    ∧ (∀ rnd, (shrinkBoard room rnd).phase = room.phase
        ∧ (shrinkBoard room rnd).shrinkInterval = room.shrinkInterval)
    ∧ (∀ pid, (removePlayer room pid).phase = room.phase
        ∧ (removePlayer room pid).shrinkInterval = room.shrinkInterval) := by
  refine ⟨?_, ?_, ?_⟩
  · intro senderId pieceId fromRow fromCol toRow toCol now player piece
      hphase hget halive hfind hown hvalid
    have hres : movePieceHandler room senderId pieceId fromRow fromCol toRow toCol now
        = ((checkGameEnd (executeMove room piece toRow toCol now).1).1,
           Emit.toRoom (Msg.pieceMoved pieceId fromRow fromCol toRow toCol senderId)
             :: (checkGameEnd (executeMove room piece toRow toCol now).1).2,
           (executeMove room piece toRow toCol now).2) := by
      unfold movePieceHandler
      rw [if_neg (by simp [hphase]), hget]
      dsimp only
      rw [if_neg (by simp [halive])]
      rw [hfind]
      dsimp only
      rw [if_neg (by simp [hown])]
      rw [if_neg (by simp [hvalid])]
    rw [hres]
    constructor
    · intro hlen
      unfold checkGameEnd
      rw [if_pos hlen]
      refine ⟨rfl, rfl, ?_⟩
      exact List.mem_cons_of_mem _ (List.mem_singleton.mpr rfl)
    · intro hlen
      unfold checkGameEnd
      rw [if_neg (by omega)]
  · intro rnd
    exact ⟨shrinkBoard_phase room rnd, shrinkBoard_shrinkInterval room rnd⟩
  · intro pid
    exact ⟨removePlayer_phase room pid, removePlayer_shrinkInterval room pid⟩

/-- Witness for C2: the capture of "B"'s last piece ends the match through
the move handler. -/
theorem c2_witness :
    (movePieceHandler roomEnd "A" "A_0" 3 3 3 4 0).1.phase = Phase.ended
    ∧ (movePieceHandler roomEnd "A" "A_0" 3 3 3 4 0).1.shrinkInterval = false
    ∧ Emit.toRoom (Msg.gameEnded
        ((alivePlayers (executeMove roomEnd pKingA 3 4 0).1).head?.map Player.name))
      ∈ (movePieceHandler roomEnd "A" "A_0" 3 3 3 4 0).2.1 :=
  ((c2_win_detection roomEnd).1 "A" "A_0" 3 3 3 4 0 playerAEnd pKingA
    rfl (by decide) (by decide) (by decide) (by decide) (by decide)).1 (by decide)

/-- C2 counterexample: the shrink elimination on `roomCex` drops the set of
alive players with pieces to exactly one, yet the room stays in `playing`
with the shrink scheduler still running — win detection is not invoked on
the shrink-elimination path (nor on player removal). -/
theorem c2_counterexample :
    (alivePlayers (shrinkBoard roomCex rnd0)).length = 1
    ∧ (shrinkBoard roomCex rnd0).phase = Phase.playing
    ∧ (shrinkBoard roomCex rnd0).shrinkInterval = true := by
  refine ⟨?_, ?_, ?_⟩
  · unfold alivePlayers
    rw [shrink_roomCex_players]
    decide
  · rw [shrinkBoard_phase]
    rfl
  · rw [shrinkBoard_shrinkInterval]
    rfl

end ChessMMO
